import Mathlib

/-!
Verification of the plugin/service core of the `echo-sys` repository
(`backend/core/plugins/`): the dependency-injection service container
(`container.py`), the event bus (`events.py`), the configuration manager
(`config.py`), plugin discovery and dependency resolution (`discovery.py`),
and the plugin manager (`manager.py`).

Each Python component is shallowly embedded as executable Lean definitions:
Python dicts become association lists with insert-or-replace semantics,
Python exceptions become a structured inductive type, and unbounded Python
recursion becomes fuel-indexed recursion (with proofs that the fuel bound
is never the reason for a failure on the inputs of interest).
-/

namespace EchoSys

/-- Structured model of the Python exceptions raised by the plugin core
(`exceptions.py`).  Message formats are represented structurally: one
constructor per distinct message shape, carrying the interpolated values. -/
inductive PyExn where
  /-- `PluginAlreadyLoadedError(f"Plugin already loaded: {plugin_name}")` -/
  | pluginAlreadyLoaded (pluginName : String)
  /-- `PluginLoadError(f"Failed to load plugin {plugin_name}", plugin_name, e)` -/
  | pluginLoadError (pluginName : String) (cause : PyExn)
  /-- `PluginDependencyError(f"Circular dependency detected involving {plugin_name}")` -/
  | depCycleError (pluginName : String)
  /-- `PluginDependencyError(f"Dependency not found: {plugin_name}")` -/
  | depMissingError (pluginName : String)
  /-- `ServiceResolutionError(f"Circular dependency detected while resolving {T.__name__}")` -/
  | srCircular (ty : String)
  /-- `ServiceResolutionError(f"Service {T.__name__} is not registered")` -/
  | srNotRegistered (ty : String)
  /-- `ServiceResolutionError(f"Failed to create instance using factory for {T.__name__}", cause=e)` -/
  | srFactoryFailed (ty : String) (cause : PyExn)
  /-- `ServiceResolutionError(f"Cannot resolve parameter '{p}' for {cls.__name__}: ...")` -/
  | srParamNoAnnot (param cls : String)
  /-- `ServiceResolutionError(f"Failed to create instance of {cls.__name__}", cause=e)` -/
  | srCreateFailed (cls : String) (cause : PyExn)
  /-- an arbitrary exception raised by plugin-supplied code -/
  | userError (msg : String)
  /-- embedding artifact: the fuel budget standing in for Python's unbounded
  recursion was exhausted (proved unreachable where it matters) -/
  | fuelExhausted
  deriving DecidableEq, Repr

/-- Is this one of the `ServiceResolutionError` shapes?  Models Python's
`except ServiceResolutionError` clause in `_create_instance_with_injection`. -/
def PyExn.isSR : PyExn → Bool
  | .srCircular _ => true
  | .srNotRegistered _ => true
  | .srFactoryFailed _ _ => true
  | .srParamNoAnnot _ _ => true
  | .srCreateFailed _ _ => true
  | _ => false

/-! ### Python dict model

Association lists with first-match lookup; assignment replaces the value at
an existing key in place (preserving its position, as CPython dicts do) and
otherwise appends. -/

/-- `d[k]` lookup (first matching key). -/
def dictLookup {α : Type} : List (String × α) → String → Option α
  | [], _ => none
  | p :: rest, k => if p.1 == k then some p.2 else dictLookup rest k

/-- `d[k] = v` assignment on a Python dict: replace in place at an existing
key (keys are unique in any list built through these operations), append
otherwise. -/
def dictInsert {α : Type} : List (String × α) → String → α → List (String × α)
  | [], k, v => [(k, v)]
  | p :: rest, k, v =>
    if p.1 == k then (k, v) :: rest else p :: dictInsert rest k v

/-- `del d[k]` / dict removal: drop the entry with key `k`. -/
def dictErase {α : Type} : List (String × α) → String → List (String × α)
  | [], _ => []
  | p :: rest, k => if p.1 == k then dictErase rest k else p :: dictErase rest k

/-- `k in d` membership test. -/
def dictContains {α : Type} : List (String × α) → String → Bool
  | [], _ => false
  | p :: rest, k => p.1 == k || dictContains rest k

/-! ## Service container (`container.py`)

Service types are identified by name (`String`).  Instances are modelled as
terms recording how they were constructed, which is all the claims need. -/

/-- A runtime instance produced by the container. -/
inductive PyVal where
  /-- object built by constructor injection: class name and resolved kwargs -/
  | obj (clsName : String) (kwargs : List (String × PyVal))
  /-- object returned by a factory / registered instance -/
  | fact (tag : String)

/-- One constructor parameter as seen by `inspect.signature` /
`get_type_hints` (the `self` parameter is already skipped). -/
structure CParam where
  name : String
  /-- the type annotation; `none` models a missing annotation
  (`inspect.Parameter.empty`) -/
  annot : Option String
  hasDefault : Bool
  deriving DecidableEq, Repr

/-- The implementation slot of a `ServiceDescriptor`: either a factory
callable (whose call either returns a value or raises) or a class subject to
constructor injection. -/
inductive Impl where
  | factory (result : Option PyVal)
  | classImpl (clsName : String) (params : List CParam)

/-- `ServiceLifetime`. -/
inductive Lifetime where
  | singleton
  | transient
  | scopedL
  deriving DecidableEq, Repr

/-- `ServiceDescriptor` (the unused `instance` attribute is omitted; the
container caches singletons in its `_singletons` dict). -/
structure Descriptor where
  impl : Impl
  lifetime : Lifetime

/-- Mutable state of a `ServiceContainer`: `_services`, `_singletons` and
the `_building` set (kept as a list; `resolve` only ever pushes a type
absent from it, so it holds no duplicates). -/
structure CState where
  services : List (String × Descriptor)
  singletons : List (String × PyVal)
  building : List String

/-- `ServiceContainer._create_instance_with_injection`, parameter loop:
resolves each constructor parameter through `rec` (the surrounding
`resolve`), skipping unannotated defaulted parameters, falling back to the
default when a `ServiceResolutionError` occurs and a default exists. -/
def resolveParams (rec : CState → String → (Except PyExn PyVal) × CState)
    (cls : String) :
    CState → List CParam → (Except PyExn (List (String × PyVal))) × CState
  | st, [] => (.ok [], st)
  | st, p :: rest =>
    match p.annot with
    | none =>
      if p.hasDefault then resolveParams rec cls st rest
      else (.error (.srParamNoAnnot p.name cls), st)
    | some pty =>
      match rec st pty with
      | (.ok v, st') =>
        match resolveParams rec cls st' rest with
        | (.ok kw, st'') => (.ok ((p.name, v) :: kw), st'')
        | (.error e, st'') => (.error e, st'')
      | (.error e, st') =>
        if p.hasDefault && e.isSR then resolveParams rec cls st' rest
        else (.error e, st')

/-- `ServiceContainer._create_instance_with_injection`: run the parameter
loop, build the instance, and wrap any escaping exception as
`ServiceResolutionError(f"Failed to create instance of {cls}", cause=e)`. -/
def createWithInjection (rec : CState → String → (Except PyExn PyVal) × CState)
    (st : CState) (cls : String) (params : List CParam) :
    (Except PyExn PyVal) × CState :=
  match resolveParams rec cls st params with
  | (.ok kwargs, st') => (.ok (.obj cls kwargs), st')
  | (.error e, st') => (.error (.srCreateFailed cls e), st')

/-- `ServiceContainer._create_instance`. -/
def createInstance (rec : CState → String → (Except PyExn PyVal) × CState)
    (st : CState) (ty : String) (d : Descriptor) :
    (Except PyExn PyVal) × CState :=
  match d.impl with
  | .factory none =>
      (.error (.srFactoryFailed ty (.userError "factory raised")), st)
  | .factory (some v) => (.ok v, st)
  | .classImpl cls params => createWithInjection rec st cls params

/-- `ServiceContainer._resolve_internal`. -/
def resolveInternal (rec : CState → String → (Except PyExn PyVal) × CState)
    (st : CState) (ty : String) : (Except PyExn PyVal) × CState :=
  match dictLookup st.services ty with
  | none => (.error (.srNotRegistered ty), st)
  | some d =>
    match d.lifetime with
    | .singleton =>
      match dictLookup st.singletons ty with
      | some v => (.ok v, st)
      | none =>
        match createInstance rec st ty d with
        | (.ok v, st') =>
            (.ok v, { st' with singletons := dictInsert st'.singletons ty v })
        | (.error e, st') => (.error e, st')
    | _ => createInstance rec st ty d

/-- `ServiceContainer.resolve`: fail fast if `ty` is in the `_building` set
(this check precedes the `try`, so it leaves the state untouched);
otherwise push `ty`, resolve, and discard `ty` in the `finally`.  `fuel`
bounds the nesting depth of recursive resolutions standing in for Python's
call stack. -/
def containerResolve : Nat → CState → String → (Except PyExn PyVal) × CState
  | 0, st, ty =>
    if ty ∈ st.building then (.error (.srCircular ty), st)
    else (.error .fuelExhausted, st)
  | fuel + 1, st, ty =>
    if ty ∈ st.building then (.error (.srCircular ty), st)
    else
      let st1 : CState := { st with building := ty :: st.building }
      let r := resolveInternal (containerResolve fuel) st1 ty
      (r.1, { r.2 with building := r.2.building.erase ty })



/-! ### Container lemmas -/

/-- The parameter-resolution loop preserves the `_building` set whenever the
recursive resolver does. -/
theorem resolveParams_building
    (rec : CState → String → (Except PyExn PyVal) × CState)
    (hrec : ∀ st ty, ((rec st ty).2).building = st.building)
    (cls : String) :
    ∀ ps st, ((resolveParams rec cls st ps).2).building = st.building := by
  intro ps
  induction ps with
  | nil => intro st; simp [resolveParams]
  | cons p rest ih =>
    intro st
    cases hA : p.annot with
    | none =>
      by_cases hd : p.hasDefault <;> simp [resolveParams, hA, hd, ih]
    | some pty =>
      cases hR : rec st pty with
      | mk r st' =>
        have h1 : st'.building = st.building := by
          have := hrec st pty; rw [hR] at this; exact this
        cases r with
        | ok v =>
          cases hP : resolveParams rec cls st' rest with
          | mk r2 st'' =>
            have h2 : st''.building = st'.building := by
              have := ih st'; rw [hP] at this; exact this
            cases r2 <;> simp_all [resolveParams, hA, hR, hP]
        | error e =>
          simp only [resolveParams, hA, hR]
          split
          · rw [ih st']; exact h1
          · exact h1

theorem createWithInjection_building
    (rec : CState → String → (Except PyExn PyVal) × CState)
    (hrec : ∀ st ty, ((rec st ty).2).building = st.building)
    (st : CState) (cls : String) (ps : List CParam) :
    ((createWithInjection rec st cls ps).2).building = st.building := by
  have h := resolveParams_building rec hrec cls ps st
  simp only [createWithInjection]
  cases hP : resolveParams rec cls st ps with
  | mk r st' => cases r <;> simp_all

theorem createInstance_building
    (rec : CState → String → (Except PyExn PyVal) × CState)
    (hrec : ∀ st ty, ((rec st ty).2).building = st.building)
    (st : CState) (ty : String) (d : Descriptor) :
    ((createInstance rec st ty d).2).building = st.building := by
  obtain ⟨impl, lt⟩ := d
  cases impl with
  | factory r => cases r <;> simp [createInstance]
  | classImpl cls ps =>
    simpa [createInstance] using createWithInjection_building rec hrec st cls ps

theorem resolveInternal_building
    (rec : CState → String → (Except PyExn PyVal) × CState)
    (hrec : ∀ st ty, ((rec st ty).2).building = st.building)
    (st : CState) (ty : String) :
    ((resolveInternal rec st ty).2).building = st.building := by
  simp only [resolveInternal]
  cases hS : dictLookup st.services ty with
  | none => simp
  | some d =>
    obtain ⟨impl, lt⟩ := d
    have hci := createInstance_building rec hrec st ty ⟨impl, lt⟩
    cases lt with
    | singleton =>
      cases hG : dictLookup st.singletons ty with
      | some v => simp
      | none =>
        simp only []
        cases hC : createInstance rec st ty ⟨impl, Lifetime.singleton⟩ with
        | mk r st' =>
          rw [hC] at hci
          cases r <;> simp_all
    | transient => simpa using hci
    | scopedL => simpa using hci

/-- Every `resolve` call restores `_building` to its prior contents. -/
theorem containerResolve_building :
    ∀ fuel st ty, ((containerResolve fuel st ty).2).building = st.building := by
  intro fuel
  induction fuel with
  | zero =>
    intro st ty
    by_cases h : ty ∈ st.building <;> simp [containerResolve, h]
  | succ n ih =>
    intro st ty
    by_cases h : ty ∈ st.building
    · simp [containerResolve, h]
    · have hint := resolveInternal_building (containerResolve n) ih
        { st with building := ty :: st.building } ty
      simp only [containerResolve, h, if_false]
      simp only [hint]
      exact List.erase_cons_head ty st.building

/-- Every error escaping `_create_instance_with_injection` is wrapped as a
"Failed to create instance of ..." error. -/
theorem createWithInjection_error_shape
    (rec : CState → String → (Except PyExn PyVal) × CState)
    (st : CState) (cls : String) (ps : List CParam) (e : PyExn)
    (h : (createWithInjection rec st cls ps).1 = .error e) :
    ∃ c, e = .srCreateFailed cls c := by
  simp only [createWithInjection] at h
  cases hP : resolveParams rec cls st ps with
  | mk r st' =>
    cases r with
    | ok kw => rw [hP] at h; simp at h
    | error e' => rw [hP] at h; simp at h; exact ⟨e', h.symm⟩

/-- When `ty` is not mid-resolution, `resolve(ty)` never surfaces the bare
top-level circular-dependency error for `ty`: that error is produced only by
the `_building` check. -/
theorem containerResolve_not_bare_circular
    (fuel : Nat) (st : CState) (ty : String) (h : ty ∉ st.building) :
    (containerResolve fuel st ty).1 ≠ .error (.srCircular ty) := by
  cases fuel with
  | zero => simp [containerResolve, h]
  | succ n =>
    simp only [containerResolve, h, if_false]
    generalize ({ st with building := ty :: st.building } : CState) = st1
    simp only [resolveInternal]
    cases hS : dictLookup st1.services ty with
    | none => simp
    | some d =>
      obtain ⟨impl, lt⟩ := d
      have hCI : ∀ e, (createInstance (containerResolve n) st1 ty ⟨impl, lt⟩).1
          = .error e → e ≠ .srCircular ty := by
        intro e he
        cases impl with
        | factory fr =>
          cases fr with
          | none =>
            simp [createInstance] at he
            rw [← he]
            simp
          | some v => simp [createInstance] at he
        | classImpl cls ps =>
          simp only [createInstance] at he
          obtain ⟨c, hc⟩ := createWithInjection_error_shape
            (containerResolve n) st1 cls ps e he
          rw [hc]
          simp
      cases lt with
      | singleton =>
        cases hG : dictLookup st1.singletons ty with
        | some v => simp
        | none =>
          simp only []
          cases hC : createInstance (containerResolve n) st1 ty
              ⟨impl, Lifetime.singleton⟩ with
          | mk r st' =>
            cases r with
            | ok v => simp
            | error e =>
              have := hCI e (by rw [hC])
              simp_all
      | transient =>
        simp only []
        cases hC : createInstance (containerResolve n) st1 ty
            ⟨impl, Lifetime.transient⟩ with
        | mk r st' =>
          cases r with
          | ok v => simp_all
          | error e =>
            have := hCI e (by rw [hC])
            simp_all
      | scopedL =>
        simp only []
        cases hC : createInstance (containerResolve n) st1 ty
            ⟨impl, Lifetime.scopedL⟩ with
        | mk r st' =>
          cases r with
          | ok v => simp_all
          | error e =>
            have := hCI e (by rw [hC])
            simp_all

/-- A one-service container whose single registration maps service type `T`
to a class whose constructor requires `T` itself (the self-referential
constructor dependency of the claim). -/
def selfRefState (T cls : String) : CState :=
  { services := [(T,
      { impl := .classImpl cls [{ name := "dep", annot := some T, hasDefault := false }],
        lifetime := .transient })],
    singletons := [],
    building := [] }

/-- **C4**: resolving a type that is already in the container's
currently-building set fails immediately with a `ServiceResolutionError`
reporting a circular dependency and naming the type, leaving the state
untouched; and for a self-referential constructor dependency the whole
resolution terminates with that circular-dependency error (wrapped in the
"failed to create instance" error of the requesting class) uniformly in the
available recursion depth — i.e. without unbounded recursion. -/
theorem resolve_circular_dependency_detected :
    (∀ fuel st T, T ∈ st.building →
      containerResolve fuel st T = (.error (.srCircular T), st))
    ∧ (∀ fuel T cls,
      containerResolve (fuel + 1) (selfRefState T cls) T =
        (.error (.srCreateFailed cls (.srCircular T)), selfRefState T cls)) := by
  constructor
  · intro fuel st T h
    cases fuel <;> simp [containerResolve, h]
  · intro fuel T cls
    cases fuel <;>
      simp [containerResolve, selfRefState, resolveInternal, dictLookup,
        createInstance, createWithInjection, resolveParams, PyExn.isSR,
        List.find?]

/-- Witness for **C4** at a concrete input. -/
theorem resolve_circular_dependency_detected_witness :
    containerResolve 0 { services := [], singletons := [], building := ["A"] } "A"
      = (.error (.srCircular "A"),
          { services := [], singletons := [], building := ["A"] }) :=
  resolve_circular_dependency_detected.1 0
    { services := [], singletons := [], building := ["A"] } "A" (by simp)

/-- **C8**: every `resolve(T)` call — returning or raising — leaves the
`_building` set exactly as it found it (the try/finally discard), so a
failed resolve never makes a later independent resolve of the same type
spuriously report a circular dependency. -/
theorem resolve_always_restores_building :
    (∀ fuel st T, ((containerResolve fuel st T).2).building = st.building)
    ∧ (∀ fuel1 fuel2 st T, st.building = [] →
        (containerResolve fuel2 ((containerResolve fuel1 st T).2) T).1 ≠
          .error (.srCircular T)) := by
  refine ⟨containerResolve_building, ?_⟩
  intro fuel1 fuel2 st T h
  apply containerResolve_not_bare_circular
  rw [containerResolve_building fuel1 st T, h]
  exact List.not_mem_nil T

/-- Witness for **C8** at a concrete input (a failing self-referential
resolve followed by a second resolve of the same type). -/
theorem resolve_always_restores_building_witness :
    (containerResolve 1 ((containerResolve 1 (selfRefState "A" "A") "A").2) "A").1 ≠
      .error (.srCircular "A") :=
  resolve_always_restores_building.2 1 1 (selfRefState "A" "A") "A" rfl

/-! ### Dict lemmas -/

theorem dictLookup_insert {α : Type} (d : List (String × α)) (k : String) (v : α) :
    dictLookup (dictInsert d k v) k = some v := by
  induction d with
  | nil => simp [dictInsert, dictLookup]
  | cons p rest ih =>
    by_cases h : p.1 = k <;> simp [dictInsert, dictLookup, h, ih]

theorem dictLookup_insert_ne {α : Type} (d : List (String × α)) (k k' : String)
    (v : α) (h : k' ≠ k) : dictLookup (dictInsert d k v) k' = dictLookup d k' := by
  have hkk : (k == k') = false := beq_eq_false_iff_ne.mpr (Ne.symm h)
  induction d with
  | nil => simp [dictInsert, dictLookup, hkk]
  | cons p rest ih =>
    by_cases hp : p.1 = k
    · have h1 : (p.1 == k) = true := beq_iff_eq.mpr hp
      have h3 : (p.1 == k') = false := by
        apply beq_eq_false_iff_ne.mpr
        rw [hp]
        exact Ne.symm h
      simp [dictInsert, dictLookup, h1, h3, hkk]
    · have h1 : (p.1 == k) = false := beq_eq_false_iff_ne.mpr hp
      by_cases hq : p.1 = k' <;> simp [dictInsert, dictLookup, h1, hq, h, ih]

theorem dictLookup_erase {α : Type} (d : List (String × α)) (k : String) :
    dictLookup (dictErase d k) k = none := by
  induction d with
  | nil => simp [dictErase, dictLookup]
  | cons p rest ih =>
    by_cases h : p.1 = k <;> simp [dictErase, dictLookup, h, ih]

theorem dictLookup_erase_ne {α : Type} (d : List (String × α)) (k k' : String)
    (h : k' ≠ k) : dictLookup (dictErase d k) k' = dictLookup d k' := by
  induction d with
  | nil => simp [dictErase]
  | cons p rest ih =>
    by_cases hp : p.1 = k
    · have h1 : (p.1 == k) = true := beq_iff_eq.mpr hp
      have h3 : (p.1 == k') = false := by
        apply beq_eq_false_iff_ne.mpr
        rw [hp]
        exact Ne.symm h
      simp [dictErase, dictLookup, h1, h3, ih]
    · have h1 : (p.1 == k) = false := beq_eq_false_iff_ne.mpr hp
      by_cases hq : p.1 = k' <;> simp [dictErase, dictLookup, h1, hq, h, ih]

theorem dictContains_insert {α : Type} (d : List (String × α)) (k k' : String)
    (v : α) : dictContains (dictInsert d k v) k'
      = (dictContains d k' || (k == k')) := by
  induction d with
  | nil => simp [dictInsert, dictContains, Bool.or_comm]
  | cons p rest ih =>
    by_cases hp : p.1 = k
    · have h1 : (p.1 == k) = true := beq_iff_eq.mpr hp
      by_cases hq : p.1 = k' <;>
        simp [dictInsert, dictContains, h1, hp, hq, Bool.or_comm, Bool.or_assoc]
    · have h1 : (p.1 == k) = false := beq_eq_false_iff_ne.mpr hp
      simp [dictInsert, dictContains, h1, ih, Bool.or_assoc]

theorem dictContains_lookup {α : Type} (d : List (String × α)) (k : String) :
    dictContains d k = (dictLookup d k).isSome := by
  induction d with
  | nil => simp [dictContains, dictLookup]
  | cons p rest ih =>
    by_cases h : p.1 = k <;> simp [dictContains, dictLookup, h, ih]

/-! ## Event bus (`events.py`)

Handler callbacks and filter callables are identified by `Nat` ids; their
behaviour (whether a callback raises on a given event, whether a filter
accepts it) is supplied as function parameters `raises` / `filterSem`.
`Event` keeps the fields the dispatch logic reads; timestamp, correlation
id and metadata are payload the bus never branches on and are folded into
`data`. -/

/-- `EventPriority` levels. -/
inductive EventPriority where
  | lowest
  | low
  | normal
  | high
  | highest
  deriving DecidableEq, Repr

/-- `EventPriority.value`. -/
def EventPriority.value : EventPriority → Nat
  | .lowest => 0
  | .low => 25
  | .normal => 50
  | .high => 75
  | .highest => 100

/-- `Event`. -/
structure Event where
  type : String
  data : String
  source : String
  deriving DecidableEq, Repr

/-- `EventHandler` dataclass.  Dataclass equality compares the callback
(by identity), priority, once flag and filter (by identity), which this
record's structural equality mirrors; the derived `async_handler` flag is a
function of the callback and adds nothing to equality. -/
structure EventHandler where
  handler : Nat
  priority : EventPriority
  once : Bool
  filterId : Option Nat
  deriving DecidableEq, Repr

/-- `EventBus` state: `_handlers`, `_global_handlers`, `_event_history`
and the `_stats` counters. -/
structure BusState where
  handlers : List (String × List EventHandler)
  globalHandlers : List EventHandler
  eventHistory : List Event
  statsPublished : Nat
  statsExecuted : Nat
  statsErrors : Nat
  deriving DecidableEq, Repr

/-- A fresh `EventBus()`. -/
def emptyBus : BusState :=
  { handlers := [], globalHandlers := [], eventHistory := [],
    statsPublished := 0, statsExecuted := 0, statsErrors := 0 }

/-- Stable descending-priority ordering used by `list.sort(key=priority,
reverse=True)`. -/
def priorityDesc (a b : EventHandler) : Bool :=
  b.priority.value ≤ a.priority.value

/-- `EventBus.subscribe`: append the new handler to its type's list and
re-sort the list by descending priority (Python's sort is stable). -/
def subscribe (st : BusState) (eventType : String) (handler : Nat)
    (priority : EventPriority) (once : Bool) (filterId : Option Nat) :
    BusState :=
  let eh : EventHandler :=
    { handler := handler, priority := priority, once := once, filterId := filterId }
  let cur := (dictLookup st.handlers eventType).getD []
  { st with handlers :=
      dictInsert st.handlers eventType ((cur ++ [eh]).mergeSort priorityDesc) }

/-- `handler.filter_func and not handler.filter_func(event)` — does the
handler's optional filter accept the event? -/
def handlerAccepts (filterSem : Nat → Event → Bool) (h : EventHandler)
    (event : Event) : Bool :=
  match h.filterId with
  | none => true
  | some f => filterSem f event

/-- The `for handler in handlers_to_execute` loop of
`EventBus._execute_handlers`: returns (handlers actually invoked in order,
`handlers_to_remove`, successful-execution count, error count).
A raising handler is counted as an error and — since the `once` check sits
after the call inside the `try` — is **not** marked for removal. -/
def execLoop (raises : Nat → Event → Bool) (filterSem : Nat → Event → Bool)
    (event : Event) :
    List EventHandler →
    List EventHandler × List (String × EventHandler) × Nat × Nat
  | [] => ([], [], 0, 0)
  | h :: rest =>
    if handlerAccepts filterSem h event then
      let r := execLoop raises filterSem event rest
      if raises h.handler event then
        (h :: r.1, r.2.1, r.2.2.1, r.2.2.2 + 1)
      else if h.once then
        (h :: r.1, (event.type, h) :: r.2.1, r.2.2.1 + 1, r.2.2.2)
      else
        (h :: r.1, r.2.1, r.2.2.1 + 1, r.2.2.2)
    else
      execLoop raises filterSem event rest

/-- The removal loop at the end of `EventBus._execute_handlers`: each
`(event_type, handler)` pair is removed from the per-type list when the
type has a handler list, otherwise from the global list. -/
def removeOnce (st : BusState) :
    List (String × EventHandler) → BusState
  | [] => st
  | (etype, h) :: rest =>
    let st' :=
      if dictContains st.handlers etype then
        let filtered :=
          ((dictLookup st.handlers etype).getD []).filter (fun x => x ≠ h)
        { st with handlers := dictInsert st.handlers etype filtered }
      else
        { st with globalHandlers := st.globalHandlers.filter (fun x => x ≠ h) }
    removeOnce st' rest

/-- `EventBus._execute_handlers`: build the execution set (type-specific
plus global handlers), sort it by descending priority, run the loop, then
remove the fired one-shot handlers.  Returns the new state and the list of
handlers that were invoked, in invocation order. -/
def executeHandlers (raises filterSem : Nat → Event → Bool) (st : BusState)
    (event : Event) : BusState × List EventHandler :=
  let handlersToExecute :=
    ((dictLookup st.handlers event.type).getD []) ++ st.globalHandlers
  let sorted := handlersToExecute.mergeSort priorityDesc
  let r := execLoop raises filterSem event sorted
  let st1 := { st with statsExecuted := st.statsExecuted + r.2.2.1,
                       statsErrors := st.statsErrors + r.2.2.2 }
  (removeOnce st1 r.2.1, r.1)

/-- `EventBus.publish`: record the event in the bounded history, bump the
counter, then execute handlers. -/
def publish (raises filterSem : Nat → Event → Bool) (st : BusState)
    (event : Event) : BusState × List EventHandler :=
  let hist := st.eventHistory ++ [event]
  let hist := if 1000 < hist.length then hist.tail else hist
  let st1 := { st with eventHistory := hist,
                       statsPublished := st.statsPublished + 1 }
  executeHandlers raises filterSem st1 event

/-! ### Event bus lemmas -/

/-- The handlers actually invoked by the dispatch loop are exactly the
filter-accepted ones, in list order (raising handlers are still invoked). -/
theorem execLoop_invoked (raises filterSem : Nat → Event → Bool)
    (event : Event) :
    ∀ l, (execLoop raises filterSem event l).1 =
      l.filter (fun h => handlerAccepts filterSem h event) := by
  intro l
  induction l with
  | nil => simp [execLoop]
  | cons h rest ih =>
    by_cases ha : handlerAccepts filterSem h event
    · by_cases hr : raises h.handler event
      · simp [execLoop, ha, hr, List.filter_cons, ih]
      · by_cases ho : h.once <;>
          simp [execLoop, ha, hr, ho, List.filter_cons, ih]
    · simp [execLoop, ha, List.filter_cons, ih]

/-- `handlers_to_remove` collects exactly the accepted, non-raising `once`
handlers, each paired with the event's type. -/
theorem execLoop_toRemove (raises filterSem : Nat → Event → Bool)
    (event : Event) :
    ∀ l, (execLoop raises filterSem event l).2.1 =
      (l.filter (fun h => handlerAccepts filterSem h event
          && !raises h.handler event && h.once)).map
        (fun h => (event.type, h)) := by
  intro l
  induction l with
  | nil => simp [execLoop]
  | cons h rest ih =>
    by_cases ha : handlerAccepts filterSem h event
    · by_cases hr : raises h.handler event
      · simp [execLoop, ha, hr, List.filter_cons, ih]
      · by_cases ho : h.once <;>
          simp [execLoop, ha, hr, ho, List.filter_cons, ih]
    · simp [execLoop, ha, List.filter_cons, ih]

/-- The removal phase never adds handlers to a type's list. -/
theorem removeOnce_mono (x : EventHandler) (t : String) :
    ∀ rem (st : BusState),
      x ∈ (dictLookup (removeOnce st rem).handlers t).getD [] →
      x ∈ (dictLookup st.handlers t).getD [] := by
  intro rem
  induction rem with
  | nil => intro st hx; simpa [removeOnce] using hx
  | cons p rest ih =>
    intro st hx
    obtain ⟨etype, h⟩ := p
    simp only [removeOnce] at hx
    cases hc : dictContains st.handlers etype with
    | true =>
      simp only [hc, if_true] at hx
      have hx' := ih _ hx
      by_cases ht : t = etype
      · subst ht
        rw [dictLookup_insert] at hx'
        simp only [Option.getD_some] at hx'
        exact List.mem_of_mem_filter hx'
      · rwa [dictLookup_insert_ne _ _ _ _ ht] at hx'
    | false =>
      rw [hc] at hx
      simp only [Bool.false_eq_true, if_false] at hx
      exact ih
        { st with globalHandlers := st.globalHandlers.filter (fun x => x ≠ h) } hx

/-- Once a pair `(t, h)` is in the removal list and `t`'s handler list
exists, `h` is gone from `t`'s list after the removal phase. -/
theorem removeOnce_removes (h : EventHandler) (t : String) :
    ∀ rem (st : BusState), (t, h) ∈ rem →
      dictContains st.handlers t = true →
      h ∉ (dictLookup (removeOnce st rem).handlers t).getD [] := by
  intro rem
  induction rem with
  | nil => intro st hmem; simp at hmem
  | cons p rest ih =>
    intro st hmem hc
    obtain ⟨etype, h'⟩ := p
    rcases List.mem_cons.mp hmem with heq | htail
    · obtain ⟨rfl, rfl⟩ := Prod.ext_iff.mp heq
      simp only [removeOnce, hc, if_true]
      intro hx
      have hx' := removeOnce_mono h t rest _ hx
      rw [dictLookup_insert] at hx'
      simp only [Option.getD_some] at hx'
      have := List.of_mem_filter hx'
      simp at this
    · simp only [removeOnce]
      cases hcc : dictContains st.handlers etype with
      | true =>
        simp only [if_true]
        apply ih _ htail
        by_cases ht : t = etype
        · subst ht
          rw [dictContains_lookup, dictLookup_insert]
          rfl
        · rw [dictContains_lookup, dictLookup_insert_ne _ _ _ _ ht,
            ← dictContains_lookup]
          exact hc
      | false =>
        simp only [Bool.false_eq_true, if_false]
        exact ih
          { st with globalHandlers := st.globalHandlers.filter (fun x => x ≠ h') }
          htail hc

/-- `priorityDesc` is transitive and total, as `mergeSort` requires. -/
theorem priorityDesc_trans : ∀ a b c : EventHandler,
    priorityDesc a b = true → priorityDesc b c = true →
    priorityDesc a c = true := by
  intro a b c hab hbc
  simp only [priorityDesc, decide_eq_true_eq] at *
  omega

theorem priorityDesc_total : ∀ a b : EventHandler,
    (priorityDesc a b || priorityDesc b a) = true := by
  intro a b
  simp only [priorityDesc, Bool.or_eq_true, decide_eq_true_eq]
  omega

/-- Closed form of the handlers invoked by one `publish`: the type-specific
and global handlers, stably sorted by descending priority, restricted to
the filter-accepted ones. -/
theorem publish_invoked (raises filterSem : Nat → Event → Bool)
    (st : BusState) (event : Event) :
    (publish raises filterSem st event).2 =
      (((dictLookup st.handlers event.type).getD []
          ++ st.globalHandlers).mergeSort priorityDesc).filter
        (fun h => handlerAccepts filterSem h event) := by
  simp [publish, executeHandlers, execLoop_invoked]

/-- A successfully executed `once` handler is removed from its event type's
list by `_execute_handlers` (and it was invoked). -/
theorem executeHandlers_once_removed (raises filterSem : Nat → Event → Bool)
    (st : BusState) (event : Event) (h : EventHandler)
    (hmem : h ∈ (dictLookup st.handlers event.type).getD [])
    (honce : h.once = true)
    (hacc : handlerAccepts filterSem h event = true)
    (hok : raises h.handler event = false) :
    h ∈ (executeHandlers raises filterSem st event).2 ∧
    h ∉ (dictLookup ((executeHandlers raises filterSem st event).1).handlers
          event.type).getD [] := by
  have hperm := List.mergeSort_perm
    ((dictLookup st.handlers event.type).getD [] ++ st.globalHandlers)
    priorityDesc
  have hsorted : h ∈ ((dictLookup st.handlers event.type).getD []
      ++ st.globalHandlers).mergeSort priorityDesc :=
    hperm.mem_iff.mpr (List.mem_append_left _ hmem)
  constructor
  · simp only [executeHandlers, execLoop_invoked]
    exact List.mem_filter.mpr ⟨hsorted, hacc⟩
  · have hcontains : dictContains st.handlers event.type = true := by
      rw [dictContains_lookup]
      cases hL : dictLookup st.handlers event.type with
      | none => rw [hL] at hmem; simp at hmem
      | some l => rfl
    simp only [executeHandlers]
    apply removeOnce_removes
    · rw [execLoop_toRemove]
      apply List.mem_map.mpr
      refine ⟨h, List.mem_filter.mpr ⟨hsorted, ?_⟩, rfl⟩
      rw [hacc, hok, honce]
      rfl
    · exact hcontains

/-- **C5** counterexample: the claim says a `once` handler is removed after
its first invocation *whether it returns normally or raises*.  On the code,
a `once` handler whose callback raises is not removed (the `once` check is
skipped when the call raises), so it is invoked again by a second publish
of the same type: the claim's "invoked exactly once" fails at two
publishes. -/
theorem once_raising_handler_invoked_twice :
    ((publish (fun _ _ => true) (fun _ _ => true)
        (subscribe emptyBus "t" 7 .normal true none) ⟨"t", "", "src"⟩).2 =
      [⟨7, .normal, true, none⟩]) ∧
    ((publish (fun _ _ => true) (fun _ _ => true)
        ((publish (fun _ _ => true) (fun _ _ => true)
            (subscribe emptyBus "t" 7 .normal true none) ⟨"t", "", "src"⟩).1)
        ⟨"t", "", "src"⟩).2 =
      [⟨7, .normal, true, none⟩]) := by
  constructor <;>
    simp [publish, executeHandlers, subscribe, emptyBus, execLoop, removeOnce,
      handlerAccepts, dictLookup, dictInsert, dictContains, List.mergeSort]

/-- **C5** (amended): a handler subscribed with `once = true` is removed
from its list after the first publish in which it executes and *returns
normally*, so across any number of publishes a normally-returning `once`
handler is invoked exactly once; a `once` handler that raises is not
removed (see the counterexample). -/
theorem once_removed_after_successful_execution
    (raises filterSem : Nat → Event → Bool) (st : BusState) (event : Event)
    (h : EventHandler)
    (hmem : h ∈ (dictLookup st.handlers event.type).getD [])
    (honce : h.once = true)
    (hacc : handlerAccepts filterSem h event = true)
    (hok : raises h.handler event = false) :
    h ∈ (publish raises filterSem st event).2 ∧
    h ∉ (dictLookup ((publish raises filterSem st event).1).handlers
          event.type).getD [] :=
  executeHandlers_once_removed raises filterSem _ event h hmem honce hacc hok

/-- Witness for **C5**'s amended theorem at a concrete input. -/
theorem once_removed_after_successful_execution_witness :
    (⟨7, .normal, true, none⟩ : EventHandler) ∈
      (publish (fun _ _ => false) (fun _ _ => true)
        (subscribe emptyBus "t" 7 .normal true none) ⟨"t", "", "src"⟩).2 ∧
    (⟨7, .normal, true, none⟩ : EventHandler) ∉
      (dictLookup ((publish (fun _ _ => false) (fun _ _ => true)
          (subscribe emptyBus "t" 7 .normal true none) ⟨"t", "", "src"⟩).1).handlers
        "t").getD [] :=
  once_removed_after_successful_execution (fun _ _ => false) (fun _ _ => true)
    (subscribe emptyBus "t" 7 .normal true none) ⟨"t", "", "src"⟩
    ⟨7, .normal, true, none⟩
    (by simp [subscribe, emptyBus, dictLookup, dictInsert, List.mergeSort])
    rfl rfl rfl

/-- **C6**: one `publish` invokes exactly the filter-accepted members of
(type-specific handlers together with global handlers); the invocation
sequence (handlers run one at a time, sequentially, in the model as in the
awaited loop of `_execute_handlers`) is ordered by non-increasing priority;
in particular every HIGH-priority invocation precedes every LOW-priority
one. -/
theorem publish_executes_in_priority_order
    (raises filterSem : Nat → Event → Bool) (st : BusState) (event : Event) :
    (∀ h, h ∈ (publish raises filterSem st event).2 ↔
        (h ∈ (dictLookup st.handlers event.type).getD [] ++ st.globalHandlers ∧
          handlerAccepts filterSem h event = true)) ∧
    ((publish raises filterSem st event).2).Pairwise
      (fun a b => b.priority.value ≤ a.priority.value) ∧
    (∀ (i j : Fin ((publish raises filterSem st event).2).length),
      ((publish raises filterSem st event).2.get i).priority = EventPriority.high →
      ((publish raises filterSem st event).2.get j).priority = EventPriority.low →
      (i : Nat) < (j : Nat)) := by
  have hperm := List.mergeSort_perm
    ((dictLookup st.handlers event.type).getD [] ++ st.globalHandlers)
    priorityDesc
  have hpair : (((dictLookup st.handlers event.type).getD []
      ++ st.globalHandlers).mergeSort priorityDesc).Pairwise
      (fun a b => priorityDesc a b = true) :=
    List.sorted_mergeSort priorityDesc_trans priorityDesc_total _
  have hpw : ((publish raises filterSem st event).2).Pairwise
      (fun a b => b.priority.value ≤ a.priority.value) := by
    rw [publish_invoked]
    exact ((hpair.sublist (List.filter_sublist _)).imp
      (fun hab => by simpa [priorityDesc] using hab))
  refine ⟨?_, hpw, ?_⟩
  · intro h
    rw [publish_invoked, List.mem_filter]
    constructor
    · rintro ⟨h1, h2⟩
      exact ⟨hperm.mem_iff.mp h1, h2⟩
    · rintro ⟨h1, h2⟩
      exact ⟨hperm.mem_iff.mpr h1, h2⟩
  · intro i j hi hj
    rcases lt_trichotomy (i : Nat) (j : Nat) with hlt | heq | hgt
    · exact hlt
    · exfalso
      have : i = j := Fin.ext heq
      rw [this, hj] at hi
      cases hi
    · exfalso
      have hji : j < i := hgt
      have := (List.pairwise_iff_get.mp hpw) j i hji
      rw [hi, hj] at this
      simp [EventPriority.value] at this

/-- A bus with a LOW- and then a HIGH-priority handler subscribed to the
same event type. -/
def busHighLow : BusState :=
  subscribe (subscribe emptyBus "t" 1 .low false none) "t" 2 .high false none

/-- Witness for **C6** at a concrete input. -/
theorem publish_executes_in_priority_order_witness :
    ((⟨2, .high, false, none⟩ : EventHandler) ∈
      (publish (fun _ _ => false) (fun _ _ => true) busHighLow
        ⟨"t", "", "src"⟩).2) ∧
    ((0 : Nat) < (1 : Nat)) := by
  have H := publish_executes_in_priority_order (fun _ _ => false)
    (fun _ _ => true) busHighLow ⟨"t", "", "src"⟩
  have hlen : ((publish (fun _ _ => false) (fun _ _ => true) busHighLow
      ⟨"t", "", "src"⟩).2).length = 2 := by
    simp [publish, executeHandlers, busHighLow, subscribe, emptyBus, execLoop,
      removeOnce, handlerAccepts, dictLookup, dictInsert, dictContains,
      List.mergeSort, List.merge, priorityDesc, EventPriority.value]
  constructor
  · apply (H.1 ⟨2, .high, false, none⟩).mpr
    constructor
    · simp [busHighLow, subscribe, emptyBus, dictLookup, dictInsert,
        List.mergeSort, List.merge, priorityDesc, EventPriority.value]
    · rfl
  · refine H.2.2 ⟨0, by rw [hlen]; omega⟩ ⟨1, by rw [hlen]; omega⟩ ?_ ?_ <;>
      simp [publish, executeHandlers, busHighLow, subscribe, emptyBus, execLoop,
        removeOnce, handlerAccepts, dictLookup, dictInsert, dictContains,
        List.mergeSort, List.merge, priorityDesc, EventPriority.value]

/-! ## Configuration manager (`config.py`)

Configuration values form a JSON-like tree.  Python string operations are
modelled by executable char-list helpers (`str.lower`, `str.split`,
`str.replace`, `str.startswith`, `int(...)`), so that concrete
configurations evaluate inside proofs.  `json.loads` is an abstract
parameter `jsonLoads` (no claim inspects parsed JSON). -/

/-- A configuration value.  Python floats are kept as their literal text:
no claim inspects a float's numeric value. -/
inductive CVal where
  | boolV (b : Bool)
  | intV (n : Int)
  | floatV (lit : String)
  | strV (s : String)
  | listV (xs : List CVal)
  | dictV (d : List (String × CVal))

/-- `str.lower()`. -/
def pyLower (s : String) : String := ⟨s.data.map Char.toLower⟩

/-- `str.replace('_', '.')`. -/
def pyReplaceUnderscore (s : String) : String :=
  ⟨s.data.map (fun c => if c = '_' then '.' else c)⟩

/-- Split a char list at every `'.'`. -/
def splitOnDot : List Char → List Char → List (List Char)
  | [], acc => [acc.reverse]
  | c :: rest, acc =>
    if c = '.' then acc.reverse :: splitOnDot rest []
    else splitOnDot rest (c :: acc)

/-- `str.split('.')`. -/
def pySplitDot (s : String) : List String :=
  (splitOnDot s.data []).map List.asString

/-- `str.startswith(pre)`. -/
def pyStartsWith (s pre : String) : Bool := pre.data.isPrefixOf s.data

/-- `str.strip()`. -/
def pyStrip (s : String) : String :=
  ⟨((s.data.dropWhile Char.isWhitespace).reverse.dropWhile
      Char.isWhitespace).reverse⟩

/-- Digit-string parsing used by the `int(value)` model. -/
def parseNatDigits : List Char → Option Nat
  | [] => none
  | cs =>
    if cs.all Char.isDigit then
      some (cs.foldl (fun acc c => acc * 10 + (c.toNat - 48)) 0)
    else none

/-- `int(value)` (optional sign followed by digits; Python's tolerance for
surrounding whitespace and underscores is not modelled — no claim uses
such numerals). -/
def parseInt (s : String) : Option Int :=
  match s.data with
  | '-' :: rest => (parseNatDigits rest).map (fun n => -(n : Int))
  | '+' :: rest => (parseNatDigits rest).map (fun n => (n : Int))
  | cs => (parseNatDigits cs).map (fun n => (n : Int))

/-- Syntactic acceptance for `float(value)` on strings containing a dot:
optional sign, digits with exactly one dot, at least one digit (exponent
forms are not modelled — no claim uses them). -/
def isFloatLit (s : String) : Bool :=
  let t := match s.data with
    | '-' :: rest => rest
    | '+' :: rest => rest
    | cs => cs
  match splitOnDot t [] with
  | [a, b] => !(a.isEmpty && b.isEmpty) && (a ++ b).all Char.isDigit
  | _ => false

/-- The numeric branch of `ConfigManager._convert_value`: `float(value)`
when the string contains a dot, else `int(value)`; `none` models the
`ValueError` falling through to the next branch. -/
def numericParse (value : String) : Option CVal :=
  if value.data.contains '.' then
    if isFloatLit value then some (.floatV value) else none
  else
    (parseInt value).map (fun n => CVal.intV n)

/-- `ConfigManager._convert_value`: booleans first, then numbers, then JSON
for strings starting with `{` or `[`, else the raw string. -/
def convertValue (jsonLoads : String → Option CVal) (value : String) : CVal :=
  if pyLower value == "true" || pyLower value == "yes"
      || pyLower value == "1" then
    .boolV true
  else if pyLower value == "false" || pyLower value == "no"
      || pyLower value == "0" then
    .boolV false
  else
    match numericParse value with
    | some cv => cv
    | none =>
      if pyStartsWith value "\x7b" || pyStartsWith value "[" then
        match jsonLoads value with
        | some cv => cv
        | none => .strV value
      else .strV value

/-- The key walk of `ConfigManager._set_nested_value`: descend through the
dotted key's segments creating intermediate dicts, and assign the converted
value at the leaf.  Indexing into an existing non-dict intermediate value
raises a `TypeError` in Python, modelled as an error. -/
def setNested (cfg : List (String × CVal)) :
    List String → CVal → Except PyExn (List (String × CVal))
  | [], _ => .ok cfg
  | [k], v => .ok (dictInsert cfg k v)
  | k :: rest, v =>
    match dictLookup cfg k with
    | some (.dictV d) =>
      match setNested d rest v with
      | .ok d' => .ok (dictInsert cfg k (.dictV d'))
      | .error e => .error e
    | some _ => .error (.userError "TypeError: not a dict")
    | none =>
      match setNested ([] : List (String × CVal)) rest v with
      | .ok d' => .ok (dictInsert cfg k (.dictV d'))
      | .error e => .error e

/-- `ConfigManager._set_nested_value`. -/
def setNestedValue (jsonLoads : String → Option CVal)
    (cfg : List (String × CVal)) (key value : String) :
    Except PyExn (List (String × CVal)) :=
  setNested cfg (pySplitDot key) (convertValue jsonLoads value)

/-- `ConfigManager._load_environment` over the process environment
(an ordered key/value list): keep keys with the `ALSANIAMCP_` prefix,
strip the prefix, lowercase, turn `_` into `.`, and set the converted
value at that nested key. -/
def loadEnvironment (jsonLoads : String → Option CVal) :
    List (String × String) → List (String × CVal) →
    Except PyExn (List (String × CVal))
  | [], cfg => .ok cfg
  | (k, v) :: rest, cfg =>
    if pyStartsWith k "ALSANIAMCP_" then
      let configKey := pyReplaceUnderscore (pyLower ⟨k.data.drop 11⟩)
      match setNestedValue jsonLoads cfg configKey v with
      | .ok cfg' => loadEnvironment jsonLoads rest cfg'
      | .error e => .error e
    else loadEnvironment jsonLoads rest cfg

/-- `ConfigManager._parse_env_file` over the file's lines: skip blank and
`#` lines, split each remaining line at the first `=`, and set the
converted value at the lowercased dotted key. -/
def splitFirstEq : List Char → List Char → Option (List Char × List Char)
  | [], _ => none
  | c :: rest, acc =>
    if c = '=' then some (acc.reverse, rest) else splitFirstEq rest (c :: acc)

def parseEnvFile (jsonLoads : String → Option CVal) :
    List String → List (String × CVal) →
    Except PyExn (List (String × CVal))
  | [], cfg => .ok cfg
  | line :: rest, cfg =>
    let l := pyStrip line
    if l.data ≠ [] && !pyStartsWith l "#" then
      match splitFirstEq l.data [] with
      | some (key, value) =>
        let nestedKey := pyReplaceUnderscore (pyLower key.asString)
        match setNestedValue jsonLoads cfg nestedKey value.asString with
        | .ok cfg' => parseEnvFile jsonLoads rest cfg'
        | .error e => .error e
      | none => parseEnvFile jsonLoads rest cfg
    else parseEnvFile jsonLoads rest cfg

mutual
/-- `ConfigManager._merge_config`: recursive deep merge — the loop over the
override dict's items. -/
def mergeConfig (base : List (String × CVal)) :
    List (String × CVal) → List (String × CVal)
  | [] => base
  | (k, v) :: rest => mergeConfig (mergeEntry base k v) rest

/-- One loop iteration of `_merge_config`: dict values at a shared key
merge key-wise, any other override value replaces the base value. -/
def mergeEntry (base : List (String × CVal)) (k : String) (v : CVal) :
    List (String × CVal) :=
  match dictLookup base k, v with
  | some (.dictV bd), .dictV od => dictInsert base k (.dictV (mergeConfig bd od))
  | _, _ => dictInsert base k v
end

/-- `ConfigSource`; `data` stands for the parsed contents of the file at
`path` (`none`: missing file or load error, which `load_all` logs and
skips).  The `last_modified` bookkeeping is irrelevant to the merge. -/
structure ConfigSource where
  name : String
  path : String
  format : String
  priority : Int
  watch : Bool
  data : Option (List (String × CVal))

/-- `ConfigManager.add_source`: append, then stable-sort ascending by
priority. -/
def addSource (sources : List ConfigSource) (s : ConfigSource) :
    List ConfigSource :=
  (sources ++ [s]).mergeSort (fun a b => a.priority ≤ b.priority)

/-- The built-in `self._defaults`. -/
def defaultConfig : List (String × CVal) :=
  [("plugins", .dictV
      [("discovery_paths", .listV [.strV "./plugins", .strV "./backend/plugins"]),
       ("auto_load", .boolV true),
       ("hot_reload", .boolV true)]),
   ("logging", .dictV
      [("level", .strV "INFO"),
       ("format", .strV "%(asctime)s - %(name)s - %(levelname)s - %(message)s")]),
   ("system", .dictV
      [("health_check_interval", .intV 30),
       ("max_concurrent_operations", .intV 10)])]

/-- `ConfigManager.load_all`: start from the defaults, deep-merge each
registered source in stored order (non-loadable or empty sources are
skipped), then merge the environment overlay last. -/
def loadAll (jsonLoads : String → Option CVal) (sources : List ConfigSource)
    (env : List (String × String)) : Except PyExn (List (String × CVal)) :=
  let newConfig := sources.foldl
    (fun acc s =>
      match s.data with
      | some d => if d.isEmpty then acc else mergeConfig acc d
      | none => acc)
    defaultConfig
  match loadEnvironment jsonLoads env [] with
  | .ok envConfig =>
      .ok (if envConfig.isEmpty then newConfig else mergeConfig newConfig envConfig)
  | .error e => .error e

/-! ### Config lemmas -/

theorem dictLookup_not_mem {α : Type} (d : List (String × α)) (k : String)
    (h : k ∉ d.map Prod.fst) : dictLookup d k = none := by
  induction d with
  | nil => rfl
  | cons p rest ih =>
    simp only [List.map_cons, List.mem_cons] at h
    push_neg at h
    have h1 : (p.1 == k) = false := beq_eq_false_iff_ne.mpr (fun hh => h.1 hh.symm)
    simp [dictLookup, h1, ih h.2]

/-- Lookup at any other key is unchanged by one merge step. -/
theorem mergeEntry_lookup_ne (base : List (String × CVal)) (k k' : String)
    (v : CVal) (h : k' ≠ k) :
    dictLookup (mergeEntry base k v) k' = dictLookup base k' := by
  rw [mergeEntry.eq_def]
  cases hb : dictLookup base k with
  | none => cases v <;> simp [dictLookup_insert_ne _ _ _ _ h]
  | some bv =>
    cases bv <;> cases v <;> simp [dictLookup_insert_ne _ _ _ _ h]

/-- Key-wise characterisation of the recursive deep merge: at every key, a
pair of dicts merges recursively, any other override value wins, and keys
absent from the override keep the base value. -/
theorem mergeConfig_lookup (override base : List (String × CVal)) (k : String)
    (hnd : (override.map Prod.fst).Nodup) :
    dictLookup (mergeConfig base override) k =
      (match dictLookup base k, dictLookup override k with
       | some (.dictV bd), some (.dictV od) => some (.dictV (mergeConfig bd od))
       | _, some v => some v
       | bv, none => bv) := by
  induction override generalizing base with
  | nil =>
    rw [mergeConfig]
    cases hb : dictLookup base k with
    | none => simp [dictLookup]
    | some bv => cases bv <;> simp [dictLookup]
  | cons p rest ih =>
    obtain ⟨k', v'⟩ := p
    simp only [List.map_cons, List.nodup_cons] at hnd
    obtain ⟨hk', hrest⟩ := hnd
    rw [mergeConfig]
    rw [ih _ hrest]
    by_cases hk : k = k'
    · subst hk
      have hrnone : dictLookup rest k = none :=
        dictLookup_not_mem rest k hk'
      have hhead : dictLookup ((k, v') :: rest) k = some v' := by
        simp [dictLookup]
      rw [hrnone, hhead, mergeEntry.eq_def]
      cases hb : dictLookup base k with
      | none => cases v' <;> simp [dictLookup_insert]
      | some bv => cases bv <;> cases v' <;> simp [dictLookup_insert]
    · have hhead : dictLookup ((k', v') :: rest) k = dictLookup rest k := by
        have h1 : (k' == k) = false :=
          beq_eq_false_iff_ne.mpr (fun hh => hk hh.symm)
        simp [dictLookup, h1]
      rw [mergeEntry_lookup_ne _ _ _ _ hk, hhead]

/-- The merge procedure as the specification words it (for comparison with
`loadAll`): defaults first, then every registered source in ascending
priority order (stable sort), then the environment overlay last. -/
def loadAllSpecSorted (jsonLoads : String → Option CVal)
    (sources : List ConfigSource) (env : List (String × String)) :
    Except PyExn (List (String × CVal)) :=
  let ordered := sources.mergeSort (fun a b => a.priority ≤ b.priority)
  let merged := ordered.foldl
    (fun acc s =>
      match s.data with
      | some d => if d.isEmpty then acc else mergeConfig acc d
      | none => acc)
    defaultConfig
  match loadEnvironment jsonLoads env [] with
  | .ok envConfig =>
      .ok (if envConfig.isEmpty then merged else mergeConfig merged envConfig)
  | .error e => .error e

/-- A priority-100 source holding `shared = "a"` and `only100 = "x"`. -/
def srcPrio100 : ConfigSource :=
  { name := "s100", path := "s100.json", format := "json", priority := 100,
    watch := false,
    data := some [("shared", .strV "a"), ("only100", .strV "x")] }

/-- A priority-200 source holding `shared = "b"` and `only200 = "y"`. -/
def srcPrio200 : ConfigSource :=
  { name := "s200", path := "s200.json", format := "json", priority := 200,
    watch := false,
    data := some [("shared", .strV "b"), ("only200", .strV "y")] }

/-- **C7**: `add_source` keeps the registered sources in ascending priority
order; on such a list `load_all` computes exactly the spec's merge
(defaults, then sources by ascending priority, then the environment
overlay); the deep merge combines dicts key-wise and lets any other
override value win; and for two sources with priorities 100 and 200
sharing a key, the merged configuration holds the priority-200 value while
keys present in only one source appear unchanged. -/
theorem load_all_merges_by_ascending_priority :
    (∀ sources s, (addSource sources s).Pairwise
        (fun a b => a.priority ≤ b.priority)) ∧
    (∀ jsonLoads sources env,
      sources.Pairwise (fun a b => a.priority ≤ b.priority) →
      loadAll jsonLoads sources env = loadAllSpecSorted jsonLoads sources env) ∧
    (∀ override base k, (override.map Prod.fst).Nodup →
      dictLookup (mergeConfig base override) k =
        (match dictLookup base k, dictLookup override k with
         | some (.dictV bd), some (.dictV od) =>
             some (.dictV (mergeConfig bd od))
         | _, some v => some v
         | bv, none => bv)) ∧
    (∀ jsonLoads,
      ((loadAll jsonLoads (addSource (addSource [] srcPrio100) srcPrio200)
          []).toOption.bind (fun cfg => dictLookup cfg "shared")
        = some (.strV "b")) ∧
      ((loadAll jsonLoads (addSource (addSource [] srcPrio100) srcPrio200)
          []).toOption.bind (fun cfg => dictLookup cfg "only100")
        = some (.strV "x")) ∧
      ((loadAll jsonLoads (addSource (addSource [] srcPrio100) srcPrio200)
          []).toOption.bind (fun cfg => dictLookup cfg "only200")
        = some (.strV "y"))) := by
  refine ⟨?_, ?_, ?_, ?_⟩
  · intro sources s
    have h := @List.sorted_mergeSort ConfigSource
      (fun a b => decide (a.priority ≤ b.priority))
      (fun a b c hab hbc => by
        simp only [decide_eq_true_eq] at *; omega)
      (fun a b => by
        simp only [Bool.or_eq_true, decide_eq_true_eq]; omega)
      (sources ++ [s])
    exact h.imp (fun hab => by simpa using hab)
  · intro jsonLoads sources env hsorted
    have heq : sources.mergeSort (fun a b => a.priority ≤ b.priority)
        = sources :=
      List.mergeSort_of_sorted (hsorted.imp (fun hab => by simpa using hab))
    simp only [loadAll, loadAllSpecSorted, heq]
  · intro override base k hnd
    exact mergeConfig_lookup override base k hnd
  · intro jsonLoads
    refine ⟨?_, ?_, ?_⟩ <;>
      simp [loadAll, addSource, List.mergeSort, List.merge, srcPrio100,
        srcPrio200, defaultConfig, loadEnvironment, mergeConfig,
        mergeEntry.eq_def, dictInsert, dictLookup, Except.toOption]

/-- Witness for **C7** at concrete inputs. -/
theorem load_all_merges_by_ascending_priority_witness :
    (loadAll (fun _ => none) [srcPrio100, srcPrio200] []
      = loadAllSpecSorted (fun _ => none) [srcPrio100, srcPrio200] []) ∧
    (dictLookup (mergeConfig [("a", .strV "old")] [("a", .strV "new")]) "a"
      = some (.strV "new")) := by
  constructor
  · exact load_all_merges_by_ascending_priority.2.1 (fun _ => none)
      [srcPrio100, srcPrio200] []
      (by simp [srcPrio100, srcPrio200, List.pairwise_cons])
  · have h := load_all_merges_by_ascending_priority.2.2.1
      [("a", .strV "new")] [("a", .strV "old")] "a" (by simp)
    rw [h]
    simp [dictLookup]

/-- **C9**: in the value coercion shared by the environment-variable and
env-file paths, boolean recognition precedes numeric parsing: the strings
`true`/`yes`/`1` (case-insensitively) always coerce to `True` and
`false`/`no`/`0` to `False` — in particular `"1"` and `"0"` never become
the integers 1 or 0 — and every string outside these sets is tried as a
number, then as JSON when it starts with `{` or `[`, else kept as the raw
string. -/
theorem convert_value_booleans_before_numbers
    (jsonLoads : String → Option CVal) :
    (∀ s, (pyLower s = "true" ∨ pyLower s = "yes" ∨ pyLower s = "1") →
      convertValue jsonLoads s = .boolV true) ∧
    (∀ s, (pyLower s = "false" ∨ pyLower s = "no" ∨ pyLower s = "0") →
      convertValue jsonLoads s = .boolV false) ∧
    ((∀ n : Int, convertValue jsonLoads "1" ≠ .intV n) ∧
     (∀ n : Int, convertValue jsonLoads "0" ≠ .intV n)) ∧
    (∀ s, pyLower s ≠ "true" → pyLower s ≠ "yes" → pyLower s ≠ "1" →
      pyLower s ≠ "false" → pyLower s ≠ "no" → pyLower s ≠ "0" →
      convertValue jsonLoads s =
        (match numericParse s with
         | some cv => cv
         | none =>
           if pyStartsWith s "\x7b" || pyStartsWith s "[" then
             match jsonLoads s with
             | some cv => cv
             | none => .strV s
           else .strV s)) := by
  refine ⟨?_, ?_, ⟨?_, ?_⟩, ?_⟩
  · intro s h
    rcases h with h | h | h <;> simp [convertValue, h]
  · intro s h
    rcases h with h | h | h <;> simp [convertValue, h]
  · intro n
    have h1 : convertValue jsonLoads "1" = .boolV true := by
      have e : pyLower "1" = "1" := by decide
      simp [convertValue, e]
    rw [h1]
    intro hc
    cases hc
  · intro n
    have h0 : convertValue jsonLoads "0" = .boolV false := by
      have e : pyLower "0" = "0" := by decide
      simp [convertValue, e]
    rw [h0]
    intro hc
    cases hc
  · intro s h1 h2 h3 h4 h5 h6
    simp [convertValue, h1, h2, h3, h4, h5, h6]

/-- Witness for **C9** at concrete inputs. -/
theorem convert_value_booleans_before_numbers_witness :
    (convertValue (fun _ => none) "TRUE" = .boolV true) ∧
    (convertValue (fun _ => none) "0" = .boolV false) ∧
    (convertValue (fun _ => none) "42" =
      (match numericParse "42" with
       | some cv => cv
       | none =>
         if pyStartsWith "42" "\x7b" || pyStartsWith "42" "[" then
           match (fun _ => (none : Option CVal)) "42" with
           | some cv => cv
           | none => .strV "42"
         else .strV "42")) :=
  ⟨(convert_value_booleans_before_numbers (fun _ => none)).1 "TRUE"
      (Or.inl (by decide)),
   (convert_value_booleans_before_numbers (fun _ => none)).2.1 "0"
      (Or.inr (Or.inr (by decide))),
   (convert_value_booleans_before_numbers (fun _ => none)).2.2.2 "42"
      (by decide) (by decide) (by decide) (by decide) (by decide) (by decide)⟩

/-! ## Plugin discovery (`discovery.py`)

Only the dependency-resolution core is relevant to the claims: the
discovered-plugin index is the map plugin name → dependency list from each
manifest.  Python's unbounded recursion in `visit` is fuel-indexed; the
fuel budget `discovered.length + 1` dominates the deepest possible
`temp_visited` chain, and exhaustion is proved unreachable. -/

/-- The visited / temp-visited / result state of
`PluginDiscovery.resolve_dependencies`. -/
structure VisitState where
  visited : List String
  temp : List String
  result : List String
  deriving DecidableEq, Repr

/-- A plugin's manifest dependency list (`manifest.dependencies`). -/
def depsOf (discovered : List (String × List String)) (n : String) :
    List String :=
  (dictLookup discovered n).getD []

mutual
/-- The recursive `visit` of `resolve_dependencies`: cycle check against
`temp_visited`, done check against `visited`, discovery check, then visit
all dependencies before appending the plugin to the result. -/
def visit (discovered : List (String × List String)) :
    Nat → String → VisitState → Except PyExn VisitState
  | 0, _, _ => .error .fuelExhausted
  | fuel + 1, n, s =>
    if n ∈ s.temp then .error (.depCycleError n)
    else if n ∈ s.visited then .ok s
    else
      match dictLookup discovered n with
      | none => .error (.depMissingError n)
      | some deps =>
        match visitList discovered fuel deps { s with temp := n :: s.temp } with
        | .error e => .error e
        | .ok s2 =>
          .ok { visited := n :: s2.visited,
                temp := s2.temp.erase n,
                result := s2.result ++ [n] }

/-- `for dep in manifest.dependencies: visit(dep)`. -/
def visitList (discovered : List (String × List String)) :
    Nat → List String → VisitState → Except PyExn VisitState
  | _, [], s => .ok s
  | fuel, d :: ds, s =>
    match visit discovered fuel d s with
    | .error e => .error e
    | .ok s' => visitList discovered fuel ds s'
end

/-- The `for plugin_name in plugin_names` loop of `resolve_dependencies`. -/
def resolveLoop (discovered : List (String × List String)) (fuel : Nat) :
    List String → VisitState → Except PyExn VisitState
  | [], s => .ok s
  | n :: ns, s =>
    if n ∈ s.visited then resolveLoop discovered fuel ns s
    else
      match visit discovered fuel n s with
      | .error e => .error e
      | .ok s' => resolveLoop discovered fuel ns s'

/-- `PluginDiscovery.resolve_dependencies`. -/
def resolveDependencies (discovered : List (String × List String))
    (names : List String) : Except PyExn (List String) :=
  match resolveLoop discovered (discovered.length + 1) names ⟨[], [], []⟩ with
  | .ok s => .ok s.result
  | .error e => .error e

/-- The resolved load order (empty on failure). -/
def resolvedOrder (discovered : List (String × List String))
    (names : List String) : List String :=
  (resolveDependencies discovered names).toOption.getD []

/-- Dependency edge: plugin `a` lists `b` as a dependency. -/
def DepEdge (discovered : List (String × List String)) (a b : String) :
    Prop :=
  b ∈ depsOf discovered a

/-- `b` is `a` or a transitive dependency of `a`. -/
def Reaches (discovered : List (String × List String)) : String → String → Prop :=
  Relation.ReflTransGen (DepEdge discovered)

/-- The dependency graph has no directed cycle. -/
def Acyclic (discovered : List (String × List String)) : Prop :=
  ∀ n, ¬ Relation.TransGen (DepEdge discovered) n n

/-! ## Plugin manager (`manager.py`)

A plugin instance is represented by its class's observable identity: the
metadata name/version and which capability interfaces the class implements
(the `isinstance` checks of `_register_plugin_by_type` /
`_register_plugin_services`).  Plugin-supplied code (constructor,
`initialize`, `start`) either runs normally or raises; `behavior` says
where the first failure happens for each plugin name.  Events published on
the bus are modelled by their history entries `(event type, plugin name)`;
no handler feeds back into the manager in the scenarios the claims
quantify over, and `publish` itself never raises (handler errors are
swallowed by the bus). -/

/-- A plugin class as the manager observes it. -/
structure PluginClass where
  metaName : String
  version : String
  isAgent : Bool
  isEmbedding : Bool
  isMemory : Bool
  deriving DecidableEq, Repr

/-- The step of `load_plugin` at which plugin-supplied code raises. -/
inductive FailStep where
  | instantiate
  | initImpl
  | start
  deriving DecidableEq, Repr

/-- `PluginManager` state: plugin storage, the three type registries, the
service-container registrations made for plugins, and the event-bus
history. -/
structure MState where
  plugins : List (String × PluginClass)
  pluginClasses : List (String × PluginClass)
  pluginConfigs : List (String × Unit)
  loadOrder : List String
  agents : List (String × PluginClass)
  embeddings : List (String × PluginClass)
  memoryProviders : List (String × PluginClass)
  containerRegs : List String
  events : List (String × String)
  deriving DecidableEq, Repr

/-- A fresh manager. -/
def emptyMState : MState :=
  { plugins := [], pluginClasses := [], pluginConfigs := [], loadOrder := [],
    agents := [], embeddings := [], memoryProviders := [],
    containerRegs := [], events := [] }

/-- `PluginManager._register_plugin_by_type`: an `isinstance` elif-chain,
so a plugin lands in at most one registry, keyed by `metadata.name`. -/
def registerPluginByType (st : MState) (p : PluginClass) : MState :=
  if p.isAgent then
    { st with agents := dictInsert st.agents p.metaName p }
  else if p.isEmbedding then
    { st with embeddings := dictInsert st.embeddings p.metaName p }
  else if p.isMemory then
    { st with memoryProviders := dictInsert st.memoryProviders p.metaName p }
  else st

/-- `PluginManager._register_plugin_services`: register the instance under
its own class and under the first matching interface type. -/
def registerPluginServices (st : MState) (p : PluginClass) : MState :=
  let st1 := { st with containerRegs := st.containerRegs ++ [p.metaName] }
  if p.isAgent then
    { st1 with containerRegs := st1.containerRegs ++ ["IAgentPlugin"] }
  else if p.isEmbedding then
    { st1 with containerRegs := st1.containerRegs ++ ["IEmbeddingPlugin"] }
  else if p.isMemory then
    { st1 with containerRegs := st1.containerRegs ++ ["IMemoryPlugin"] }
  else st1

/-- `PluginManager._cleanup_failed_plugin`: removes the plugin from
`_plugins`, `_plugin_configs`, `_plugin_classes` and `_load_order` — and
from nothing else. -/
def cleanupFailedPlugin (st : MState) (name : String) : MState :=
  { st with plugins := dictErase st.plugins name,
            pluginConfigs := dictErase st.pluginConfigs name,
            pluginClasses := dictErase st.pluginClasses name,
            loadOrder := st.loadOrder.erase name }

/-- The `except` block of `load_plugin`: publish `plugin.error`, clean up
partial state, re-raise as `PluginLoadError(plugin_name, cause)`. -/
def loadPluginFailure (st : MState) (name : String) (cause : PyExn) :
    (Except PyExn PluginClass) × MState :=
  let st1 := { st with events := st.events ++ [("plugin.error", name)] }
  (.error (.pluginLoadError name cause), cleanupFailedPlugin st1 name)

/-- `PluginManager.load_plugin`.  `loadClass` stands for
`discovery.load_plugin` (class loading), `behavior` for where the
plugin's own code first raises. -/
def loadPlugin (loadClass : String → Except PyExn PluginClass)
    (behavior : String → Option FailStep) (st : MState) (name : String) :
    (Except PyExn PluginClass) × MState :=
  if dictContains st.plugins name then
    (.error (.pluginAlreadyLoaded name), st)
  else
    let st1 := { st with events := st.events ++ [("plugin.loading", name)] }
    match loadClass name with
    | .error e => loadPluginFailure st1 name e
    | .ok cls =>
      let st2 := { st1 with
        pluginClasses := dictInsert st1.pluginClasses name cls }
      if behavior name = some .instantiate then
        loadPluginFailure st2 name (.userError "plugin constructor raised")
      else if behavior name = some .initImpl then
        loadPluginFailure st2 name (.userError "initialize raised")
      else
        let st3 := { st2 with
          plugins := dictInsert st2.plugins name cls,
          pluginConfigs := dictInsert st2.pluginConfigs name (),
          loadOrder := st2.loadOrder ++ [name] }
        let st4 := registerPluginServices (registerPluginByType st3 cls) cls
        if behavior name = some .start then
          loadPluginFailure st4 name (.userError "start raised")
        else
          (.ok cls,
            { st4 with events := st4.events ++ [("plugin.loaded", name)] })

/-- The per-name body of the `load_plugins` loop. -/
def loadPluginsLoop (loadClass : String → Except PyExn PluginClass)
    (behavior : String → Option FailStep) :
    List String → MState → (Except PyExn Unit) × MState
  | [], st => (.ok (), st)
  | n :: ns, st =>
    if dictContains st.plugins n then loadPluginsLoop loadClass behavior ns st
    else
      match loadPlugin loadClass behavior st n with
      | (.ok _, st') => loadPluginsLoop loadClass behavior ns st'
      | (.error e, st') => (.error e, st')

/-- `PluginManager.load_plugins`: resolve the dependency order first; any
resolution failure propagates before any plugin is touched. -/
def loadPlugins (discovered : List (String × List String))
    (loadClass : String → Except PyExn PluginClass)
    (behavior : String → Option FailStep) (st : MState)
    (names : List String) : (Except PyExn Unit) × MState :=
  match resolveDependencies discovered names with
  | .error e => (.error e, st)
  | .ok order => loadPluginsLoop loadClass behavior order st

/-! ### Manager lemmas and claims -/

theorem dictContains_erase_self {α : Type} (d : List (String × α)) (k : String) :
    dictContains (dictErase d k) k = false := by
  induction d with
  | nil => rfl
  | cons p rest ih =>
    by_cases h : p.1 = k <;> simp [dictErase, dictContains, h, ih]

/-- The class used by the **C1** counterexample: an agent-capability plugin
whose `start` raises. -/
def startFailAgent : PluginClass :=
  { metaName := "p", version := "1.0.0", isAgent := true,
    isEmbedding := false, isMemory := false }

/-- **C1** counterexample: load an agent plugin whose `_start_impl` raises.
`load_plugin` raises `PluginLoadError("p", cause)` and publishes
`plugin.error`, and the plugin is absent from `get_loaded_plugins()` — but
`_cleanup_failed_plugin` never touches the type registries, so the plugin
is still present in the agents registry, contradicting "absent from every
type registry". -/
theorem load_plugin_start_failure_leaves_agent_registry :
    ((loadPlugin (fun _ => .ok startFailAgent) (fun _ => some .start)
        emptyMState "p").1 =
      .error (.pluginLoadError "p" (.userError "start raised"))) ∧
    (dictContains (loadPlugin (fun _ => .ok startFailAgent)
        (fun _ => some .start) emptyMState "p").2.plugins "p" = false) ∧
    (dictContains (loadPlugin (fun _ => .ok startFailAgent)
        (fun _ => some .start) emptyMState "p").2.agents "p" = true) ∧
    (("plugin.error", "p") ∈ (loadPlugin (fun _ => .ok startFailAgent)
        (fun _ => some .start) emptyMState "p").2.events) := by
  refine ⟨rfl, rfl, rfl, ?_⟩
  simp [loadPlugin, loadPluginFailure, cleanupFailedPlugin,
    registerPluginByType, registerPluginServices, emptyMState, startFailAgent,
    dictContains, dictInsert, dictErase]

/-- **C1** (amended): when `load_plugin` fails at any step past the
already-loaded check, it raises a `PluginLoadError` naming the plugin and
carrying the cause, publishes a `plugin.error` event, and removes the
plugin from the loaded-plugins map (and classes map); but cleanup does not
touch the type registries, so only failures occurring before
`_register_plugin_by_type` (class loading, instantiation, initialize)
leave every type registry unchanged — a failure in `start` leaves the
plugin registered by type (see the counterexample). -/
theorem load_plugin_failure_cleanup
    (loadClass : String → Except PyExn PluginClass)
    (behavior : String → Option FailStep) (st : MState) (name : String)
    (e : PyExn) (st' : MState)
    (hnew : dictContains st.plugins name = false)
    (hfail : loadPlugin loadClass behavior st name = (.error e, st')) :
    (∃ cause, e = .pluginLoadError name cause) ∧
    dictContains st'.plugins name = false ∧
    dictContains st'.pluginClasses name = false ∧
    ("plugin.error", name) ∈ st'.events ∧
    (behavior name ≠ some FailStep.start →
      st'.agents = st.agents ∧ st'.embeddings = st.embeddings ∧
      st'.memoryProviders = st.memoryProviders) := by
  cases hL : loadClass name with
  | error e0 =>
    simp only [loadPlugin, hnew, Bool.false_eq_true, if_false, hL,
      loadPluginFailure, cleanupFailedPlugin, Prod.mk.injEq,
      Except.error.injEq] at hfail
    obtain ⟨he, hst⟩ := hfail
    subst hst
    refine ⟨⟨e0, he.symm⟩, dictContains_erase_self _ _,
      dictContains_erase_self _ _, by simp, fun _ => ⟨rfl, rfl, rfl⟩⟩
  | ok cls =>
    by_cases hI : behavior name = some FailStep.instantiate
    · simp only [loadPlugin, hnew, Bool.false_eq_true, if_false, hL, hI,
        if_true, loadPluginFailure, cleanupFailedPlugin, Prod.mk.injEq,
        Except.error.injEq, Option.some.injEq] at hfail
      obtain ⟨he, hst⟩ := hfail
      subst hst
      refine ⟨⟨_, he.symm⟩, dictContains_erase_self _ _,
        dictContains_erase_self _ _, by simp, fun _ => ⟨rfl, rfl, rfl⟩⟩
    · by_cases hIn : behavior name = some FailStep.initImpl
      · simp [loadPlugin, hnew, hL, hI, hIn, loadPluginFailure,
          cleanupFailedPlugin, Prod.mk.injEq] at hfail
        obtain ⟨he, hst⟩ := hfail
        subst hst
        refine ⟨⟨_, he.symm⟩, dictContains_erase_self _ _,
          dictContains_erase_self _ _, by simp, fun _ => ⟨rfl, rfl, rfl⟩⟩
      · by_cases hS : behavior name = some FailStep.start
        · simp [loadPlugin, hnew, hL, hI, hIn, hS, loadPluginFailure,
            cleanupFailedPlugin, Prod.mk.injEq] at hfail
          obtain ⟨he, hst⟩ := hfail
          subst hst
          refine ⟨⟨_, he.symm⟩, dictContains_erase_self _ _,
            dictContains_erase_self _ _, by simp, fun hc => absurd hS hc⟩
        · simp [loadPlugin, hnew, hL, hI, hIn, hS] at hfail

/-- Witness for **C1**'s amended theorem at a concrete input (a plugin
whose `initialize` raises). -/
theorem load_plugin_failure_cleanup_witness :
    dictContains (loadPlugin (fun _ => .ok startFailAgent)
      (fun _ => some FailStep.initImpl) emptyMState "p").2.plugins "p"
      = false ∧
    (loadPlugin (fun _ => .ok startFailAgent)
      (fun _ => some FailStep.initImpl) emptyMState "p").2.agents
      = emptyMState.agents := by
  have h := load_plugin_failure_cleanup (fun _ => .ok startFailAgent)
    (fun _ => some FailStep.initImpl) emptyMState "p"
    (.pluginLoadError "p" (.userError "initialize raised"))
    (loadPlugin (fun _ => .ok startFailAgent)
      (fun _ => some FailStep.initImpl) emptyMState "p").2
    rfl rfl
  exact ⟨h.2.1, (h.2.2.2.2 (by simp)).1⟩

/-- **C10**: a successfully loaded plugin appears in `get_loaded_plugins()`
and is placed in at most one type registry, chosen by the `isinstance`
elif-chain's precedence agent → embedding → memory; a plugin implementing
several capability interfaces is registered only under the
highest-precedence one, and a plugin implementing none appears in no type
registry. -/
theorem load_plugin_registers_at_most_one_registry
    (loadClass : String → Except PyExn PluginClass)
    (behavior : String → Option FailStep) (st : MState) (name : String)
    (cls : PluginClass) (st' : MState)
    (hok : loadPlugin loadClass behavior st name = (.ok cls, st')) :
    dictContains st'.plugins name = true ∧
    (cls.isAgent = true →
      st'.agents = dictInsert st.agents cls.metaName cls ∧
      st'.embeddings = st.embeddings ∧
      st'.memoryProviders = st.memoryProviders) ∧
    (cls.isAgent = false → cls.isEmbedding = true →
      st'.embeddings = dictInsert st.embeddings cls.metaName cls ∧
      st'.agents = st.agents ∧
      st'.memoryProviders = st.memoryProviders) ∧
    (cls.isAgent = false → cls.isEmbedding = false → cls.isMemory = true →
      st'.memoryProviders = dictInsert st.memoryProviders cls.metaName cls ∧
      st'.agents = st.agents ∧
      st'.embeddings = st.embeddings) ∧
    (cls.isAgent = false → cls.isEmbedding = false → cls.isMemory = false →
      st'.agents = st.agents ∧ st'.embeddings = st.embeddings ∧
      st'.memoryProviders = st.memoryProviders) := by
  by_cases hc : dictContains st.plugins name = true
  · simp [loadPlugin, hc] at hok
  · have hc' : dictContains st.plugins name = false :=
      Bool.eq_false_iff.mpr (fun h => hc h)
    cases hL : loadClass name with
    | error e0 => simp [loadPlugin, hc', hL, loadPluginFailure] at hok
    | ok cls0 =>
      by_cases hI : behavior name = some FailStep.instantiate
      · simp [loadPlugin, hc', hL, hI, loadPluginFailure] at hok
      · by_cases hIn : behavior name = some FailStep.initImpl
        · simp [loadPlugin, hc', hL, hI, hIn, loadPluginFailure] at hok
        · by_cases hS : behavior name = some FailStep.start
          · simp [loadPlugin, hc', hL, hI, hIn, hS, loadPluginFailure] at hok
          · simp only [loadPlugin, hc', Bool.false_eq_true, if_false, hL, hI,
              hIn, hS, Prod.mk.injEq, Except.ok.injEq] at hok
            obtain ⟨hcls, hst⟩ := hok
            subst hcls
            subst hst
            refine ⟨?_, ?_, ?_, ?_, ?_⟩
            · by_cases hA : cls0.isAgent <;>
                by_cases hE : cls0.isEmbedding <;>
                by_cases hM : cls0.isMemory <;>
                simp [registerPluginByType, registerPluginServices, hA, hE, hM,
                  dictContains_insert]
            · intro hA
              simp [registerPluginByType, registerPluginServices, hA]
            · intro hA hE
              simp [registerPluginByType, registerPluginServices, hA, hE]
            · intro hA hE hM
              simp [registerPluginByType, registerPluginServices, hA, hE, hM]
            · intro hA hE hM
              simp [registerPluginByType, registerPluginServices, hA, hE, hM]

/-- Witness for **C10** at a concrete input: a plugin implementing both the
agent and embedding interfaces lands only in the agents registry. -/
theorem load_plugin_registers_at_most_one_registry_witness :
    dictContains (loadPlugin
      (fun _ => .ok ⟨"m", "1.0", true, true, false⟩) (fun _ => none)
      emptyMState "m").2.plugins "m" = true ∧
    ((loadPlugin (fun _ => .ok ⟨"m", "1.0", true, true, false⟩)
        (fun _ => none) emptyMState "m").2.agents
      = dictInsert emptyMState.agents "m" ⟨"m", "1.0", true, true, false⟩ ∧
     (loadPlugin (fun _ => .ok ⟨"m", "1.0", true, true, false⟩)
        (fun _ => none) emptyMState "m").2.embeddings
      = emptyMState.embeddings ∧
     (loadPlugin (fun _ => .ok ⟨"m", "1.0", true, true, false⟩)
        (fun _ => none) emptyMState "m").2.memoryProviders
      = emptyMState.memoryProviders) := by
  have h := load_plugin_registers_at_most_one_registry
    (fun _ => .ok ⟨"m", "1.0", true, true, false⟩) (fun _ => none)
    emptyMState "m" ⟨"m", "1.0", true, true, false⟩
    (loadPlugin (fun _ => .ok ⟨"m", "1.0", true, true, false⟩)
      (fun _ => none) emptyMState "m").2
    rfl
  exact ⟨h.1, h.2.1 rfl⟩

/-! ### Discovery lemmas -/

theorem nodup_subset_length {α : Type} [DecidableEq α] (l l' : List α)
    (h : l.Nodup) (hs : l ⊆ l') : l.length ≤ l'.length := by
  classical
  calc l.length = l.toFinset.card := (List.toFinset_card_of_nodup h).symm
    _ ≤ l'.toFinset.card := Finset.card_le_card (fun x hx => by
        simp only [List.mem_toFinset] at *
        exact hs hx)
    _ ≤ l'.length := l'.toFinset_card_le

theorem dictContains_of_mem_keys {α : Type} (d : List (String × α))
    (k : String) (h : k ∈ d.map Prod.fst) : dictContains d k = true := by
  induction d with
  | nil => simp at h
  | cons p rest ih =>
    rcases List.mem_cons.mp h with h1 | h1
    · simp [dictContains, h1.symm]
    · simp [dictContains, ih h1]

theorem mem_keys_of_dictLookup {α : Type} (d : List (String × α))
    (k : String) (v : α) (h : dictLookup d k = some v) :
    k ∈ d.map Prod.fst := by
  induction d with
  | nil => simp [dictLookup] at h
  | cons p rest ih =>
    by_cases hp : p.1 = k
    · simp [hp.symm]
    · simp only [dictLookup, show (p.1 == k) = false by simp [hp],
        Bool.false_eq_true, if_false] at h
      simp [ih h]

theorem dictLookup_mem {α : Type} (d : List (String × α)) (k : String)
    (v : α) (h : dictLookup d k = some v) : (k, v) ∈ d := by
  induction d with
  | nil => simp [dictLookup] at h
  | cons p rest ih =>
    by_cases hp : p.1 = k
    · simp only [dictLookup, show (p.1 == k) = true by simp [hp],
        if_true, Option.some.injEq] at h
      have hpv : p = (k, v) := Prod.ext_iff.mpr ⟨hp, h⟩
      rw [← hpv]
      exact List.mem_cons_self _ _
    · simp only [dictLookup, show (p.1 == k) = false by simp [hp],
        Bool.false_eq_true, if_false] at h
      exact List.mem_cons_of_mem _ (ih h)

theorem dictLookup_isSome_of_mem_keys {α : Type} (d : List (String × α))
    (k : String) (h : k ∈ d.map Prod.fst) :
    ∃ v, dictLookup d k = some v := by
  have h1 := dictContains_of_mem_keys d k h
  rw [dictContains_lookup] at h1
  exact Option.isSome_iff_exists.mp h1

theorem indexOf_append_not_mem {α : Type} [DecidableEq α] (l₁ l₂ : List α)
    (a : α) (h : a ∉ l₁) :
    (l₁ ++ l₂).indexOf a = l₁.length + l₂.indexOf a := by
  induction l₁ with
  | nil => exact (Nat.zero_add _).symm
  | cons b rest ih =>
    have hb : b ≠ a := fun hh => h (by rw [hh]; exact List.mem_cons_self _ _)
    have ha : a ∉ rest := fun hh => h (List.mem_cons_of_mem _ hh)
    rw [List.cons_append, List.indexOf_cons_ne _ hb, ih ha,
      List.length_cons]
    omega

/-- Appending a fresh node whose dependencies are already listed preserves
the "every node after its dependencies" property. -/
theorem topo_append (discovered : List (String × List String))
    (r : List String) (n : String) (hn : n ∉ r)
    (htopo : ∀ m ∈ r, ∀ d ∈ depsOf discovered m,
      r.indexOf d < r.indexOf m)
    (hdeps : ∀ d ∈ depsOf discovered n, d ∈ r) :
    ∀ m ∈ r ++ [n], ∀ d ∈ depsOf discovered m,
      (r ++ [n]).indexOf d < (r ++ [n]).indexOf m := by
  intro m hm d hd
  rcases List.mem_append.mp hm with hm1 | hm1
  · have h1 := htopo m hm1 d hd
    have hmlt : r.indexOf m < r.length := List.indexOf_lt_length.mpr hm1
    have hdmem : d ∈ r := List.indexOf_lt_length.mp (lt_trans h1 hmlt)
    rw [List.indexOf_append_of_mem hdmem, List.indexOf_append_of_mem hm1]
    exact h1
  · have hm2 : m = n := by simpa using hm1
    subst hm2
    have hdr : d ∈ r := hdeps d hd
    rw [List.indexOf_append_of_mem hdr, indexOf_append_not_mem _ _ _ hn]
    have : r.indexOf d < r.length := List.indexOf_lt_length.mpr hdr
    omega

/-- Invariant of the `resolve_dependencies` visit state. -/
structure DiscInv (discovered : List (String × List String))
    (s : VisitState) : Prop where
  tempNodup : s.temp.Nodup
  tempKeys : ∀ t ∈ s.temp, t ∈ discovered.map Prod.fst
  visitedResult : ∀ x, x ∈ s.visited ↔ x ∈ s.result
  resultNodup : s.result.Nodup
  resultTempDisjoint : ∀ x ∈ s.result, x ∉ s.temp
  resultKeys : ∀ x ∈ s.result, x ∈ discovered.map Prod.fst
  topo : ∀ m ∈ s.result, ∀ d ∈ depsOf discovered m,
    s.result.indexOf d < s.result.indexOf m
  visitedClosed : ∀ v ∈ s.visited, ∀ d ∈ depsOf discovered v, d ∈ s.visited

/-- What a successful `visit n` guarantees. -/
def VisitPost (discovered : List (String × List String)) (n : String)
    (s s' : VisitState) : Prop :=
  DiscInv discovered s' ∧ s'.temp = s.temp ∧ n ∈ s'.visited ∧
  (∀ x ∈ s.visited, x ∈ s'.visited) ∧
  (∃ new, s'.result = s.result ++ new ∧
    ∀ x ∈ new, Reaches discovered n x)

/-- What a successful dependency loop guarantees. -/
def VisitListPost (discovered : List (String × List String))
    (ds : List String) (s s' : VisitState) : Prop :=
  DiscInv discovered s' ∧ s'.temp = s.temp ∧ (∀ d ∈ ds, d ∈ s'.visited) ∧
  (∀ x ∈ s.visited, x ∈ s'.visited) ∧
  (∃ new, s'.result = s.result ++ new ∧
    ∀ x ∈ new, ∃ d ∈ ds, Reaches discovered d x)

/-- Soundness of successful runs of `visit` / its dependency loop: the
invariant is preserved, `temp_visited` is restored, the visited plugin and
all its listed dependencies end up visited, `visited` only grows, and
every newly appended result entry is reachable from the visited node. -/
theorem visit_sound (discovered : List (String × List String)) :
    ∀ fuel : Nat,
    (∀ n s s', visit discovered fuel n s = .ok s' →
      DiscInv discovered s → VisitPost discovered n s s') ∧
    (∀ ds s s', visitList discovered fuel ds s = .ok s' →
      DiscInv discovered s → VisitListPost discovered ds s s') := by
  intro fuel
  induction fuel with
  | zero =>
    constructor
    · intro n s s' h
      simp [visit] at h
    · intro ds s s' h hinv
      cases ds with
      | nil =>
        simp only [visitList, Except.ok.injEq] at h
        subst h
        exact ⟨hinv, rfl, by simp, fun x hx => hx, ⟨[], by simp, by simp⟩⟩
      | cons d ds =>
        simp [visitList, visit] at h
  | succ fuel ih =>
    have hvisit : ∀ n s s', visit discovered (fuel + 1) n s = .ok s' →
        DiscInv discovered s → VisitPost discovered n s s' := by
      intro n s s' h hinv
      by_cases ht : n ∈ s.temp
      · simp [visit, ht] at h
      · by_cases hv : n ∈ s.visited
        · simp only [visit, ht, hv, if_false, if_true, Except.ok.injEq,
            if_neg, if_pos] at h
          subst h
          exact ⟨hinv, rfl, hv, fun x hx => hx, ⟨[], by simp, by simp⟩⟩
        · cases hlk : dictLookup discovered n with
          | none => simp [visit, ht, hv, hlk] at h
          | some deps =>
            have hnk : n ∈ discovered.map Prod.fst :=
              mem_keys_of_dictLookup discovered n deps hlk
            have hdeps : depsOf discovered n = deps := by
              simp [depsOf, hlk]
            cases hvl : visitList discovered fuel deps
                { s with temp := n :: s.temp } with
            | error e => simp [visit, ht, hv, hlk, hvl] at h
            | ok s2 =>
              simp only [visit, ht, hv, hlk, hvl, if_false, if_neg,
                Except.ok.injEq] at h
              subst h
              have hinv1 : DiscInv discovered
                  { s with temp := n :: s.temp } :=
                { tempNodup := List.nodup_cons.mpr ⟨ht, hinv.tempNodup⟩
                  tempKeys := by
                    intro t htm
                    rcases List.mem_cons.mp htm with h1 | h1
                    · rw [h1]; exact hnk
                    · exact hinv.tempKeys t h1
                  visitedResult := hinv.visitedResult
                  resultNodup := hinv.resultNodup
                  resultTempDisjoint := by
                    intro x hx
                    rw [List.mem_cons]
                    push_neg
                    constructor
                    · intro hxn
                      exact hv (hxn ▸ (hinv.visitedResult x).mpr hx)
                    · exact hinv.resultTempDisjoint x hx
                  resultKeys := hinv.resultKeys
                  topo := hinv.topo
                  visitedClosed := hinv.visitedClosed }
              obtain ⟨hinv2, htemp2, hdsvis, hmono2, new2, hres2, hreach2⟩ :=
                ih.2 deps _ s2 hvl hinv1
              have hn2 : n ∉ s2.result := by
                intro hmem
                exact (hinv2.resultTempDisjoint n hmem)
                  (htemp2 ▸ List.mem_cons_self n s.temp)
              have herase : s2.temp.erase n = s.temp := by
                rw [htemp2]
                exact List.erase_cons_head n s.temp
              have hdres : ∀ d ∈ deps, d ∈ s2.result := by
                intro d hd
                exact (hinv2.visitedResult d).mp (hdsvis d hd)
              refine ⟨?_, ?_, ?_, ?_, ?_⟩
              · exact
                  { tempNodup := by
                      simp only [herase]; exact hinv.tempNodup
                    tempKeys := by
                      simp only [herase]; exact hinv.tempKeys
                    visitedResult := by
                      intro x
                      simp only [List.mem_cons, List.mem_append,
                        List.mem_singleton, hinv2.visitedResult x]
                      tauto
                    resultNodup := by
                      simp only []
                      rw [List.nodup_append]
                      refine ⟨hinv2.resultNodup, List.nodup_singleton n, ?_⟩
                      intro x hx
                      simp only [List.mem_singleton]
                      intro hxn
                      exact hn2 (hxn ▸ hx)
                    resultTempDisjoint := by
                      intro x hx
                      simp only [herase]
                      rcases List.mem_append.mp hx with h1 | h1
                      · intro hxt
                        exact hinv2.resultTempDisjoint x h1
                          (htemp2 ▸ List.mem_cons_of_mem n hxt)
                      · rw [List.mem_singleton] at h1
                        rw [h1]
                        exact ht
                    resultKeys := by
                      intro x hx
                      rcases List.mem_append.mp hx with h1 | h1
                      · exact hinv2.resultKeys x h1
                      · rw [List.mem_singleton] at h1
                        rw [h1]
                        exact hnk
                    topo := by
                      apply topo_append discovered s2.result n hn2 hinv2.topo
                      rw [hdeps]
                      exact hdres
                    visitedClosed := by
                      intro v hvmem d hd
                      rcases List.mem_cons.mp hvmem with h1 | h1
                      · rw [h1] at hd
                        rw [hdeps] at hd
                        exact List.mem_cons_of_mem n (hdsvis d hd)
                      · exact List.mem_cons_of_mem n
                          (hinv2.visitedClosed v h1 d hd) }
              · exact herase
              · exact List.mem_cons_self n s2.visited
              · intro x hx
                exact List.mem_cons_of_mem n (hmono2 x hx)
              · refine ⟨new2 ++ [n], ?_, ?_⟩
                · simp only []
                  rw [hres2]
                  simp
                · intro x hx
                  rcases List.mem_append.mp hx with h1 | h1
                  · obtain ⟨d, hd, hreach⟩ := hreach2 x h1
                    exact Relation.ReflTransGen.head
                      (show DepEdge discovered n d by
                        rw [DepEdge, hdeps]; exact hd) hreach
                  · rw [List.mem_singleton] at h1
                    rw [h1]
                    exact Relation.ReflTransGen.refl
    refine ⟨hvisit, ?_⟩
    intro ds
    induction ds with
    | nil =>
      intro s s' h hinv
      simp only [visitList, Except.ok.injEq] at h
      subst h
      exact ⟨hinv, rfl, by simp, fun x hx => hx, ⟨[], by simp, by simp⟩⟩
    | cons d ds ihds =>
      intro s s' h hinv
      cases hvd : visit discovered (fuel + 1) d s with
      | error e => simp [visitList, hvd] at h
      | ok s1 =>
        simp only [visitList, hvd] at h
        obtain ⟨hinv1, htemp1, hdvis, hmono1, new1, hres1, hreach1⟩ :=
          hvisit d s s1 hvd hinv
        obtain ⟨hinv2, htemp2, hdsvis, hmono2, new2, hres2, hreach2⟩ :=
          ihds s1 s' h hinv1
        refine ⟨hinv2, htemp2.trans htemp1, ?_, ?_, ?_⟩
        · intro x hx
          rcases List.mem_cons.mp hx with h1 | h1
          · rw [h1]
            exact hmono2 d hdvis
          · exact hdsvis x h1
        · intro x hx
          exact hmono2 x (hmono1 x hx)
        · refine ⟨new1 ++ new2, ?_, ?_⟩
          · rw [hres2, hres1, List.append_assoc]
          · intro x hx
            rcases List.mem_append.mp hx with h1 | h1
            · exact ⟨d, List.mem_cons_self d ds, hreach1 x h1⟩
            · obtain ⟨d', hd', hr⟩ := hreach2 x h1
              exact ⟨d', List.mem_cons_of_mem d hd', hr⟩

/-- On an acyclic, closed dependency graph, `visit` always succeeds (and
restores `temp_visited`), given enough fuel relative to the depth already
consumed; the budget `keys + 1` can therefore never be exhausted. -/
theorem visit_total (discovered : List (String × List String))
    (hclosed : ∀ p ∈ discovered, ∀ d ∈ p.2, d ∈ discovered.map Prod.fst)
    (hacyc : Acyclic discovered) :
    ∀ fuel : Nat,
    (∀ n s, n ∈ discovered.map Prod.fst → s.temp.Nodup →
      (∀ t ∈ s.temp, t ∈ discovered.map Prod.fst) →
      (∀ t ∈ s.temp, Relation.TransGen (DepEdge discovered) t n) →
      (discovered.map Prod.fst).length + 1 ≤ fuel + s.temp.length →
      ∃ s', visit discovered fuel n s = .ok s' ∧ s'.temp = s.temp) ∧
    (∀ ds s, (∀ d ∈ ds, d ∈ discovered.map Prod.fst) → s.temp.Nodup →
      (∀ t ∈ s.temp, t ∈ discovered.map Prod.fst) →
      (∀ d ∈ ds, ∀ t ∈ s.temp, Relation.TransGen (DepEdge discovered) t d) →
      (discovered.map Prod.fst).length + 1 ≤ fuel + s.temp.length →
      ∃ s', visitList discovered fuel ds s = .ok s' ∧ s'.temp = s.temp) := by
  intro fuel
  induction fuel with
  | zero =>
    have harith : ∀ s : VisitState, s.temp.Nodup →
        (∀ t ∈ s.temp, t ∈ discovered.map Prod.fst) →
        ¬ ((discovered.map Prod.fst).length + 1 ≤ 0 + s.temp.length) := by
      intro s hN hK hb
      have := nodup_subset_length s.temp (discovered.map Prod.fst) hN hK
      omega
    constructor
    · intro n s _ hN hK _ hb
      exact absurd hb (harith s hN hK)
    · intro ds s _ hN hK _ hb
      cases ds with
      | nil => exact ⟨s, by simp [visitList], rfl⟩
      | cons d ds => exact absurd hb (harith s hN hK)
  | succ fuel ih =>
    have hvst : ∀ n s, n ∈ discovered.map Prod.fst → s.temp.Nodup →
        (∀ t ∈ s.temp, t ∈ discovered.map Prod.fst) →
        (∀ t ∈ s.temp, Relation.TransGen (DepEdge discovered) t n) →
        (discovered.map Prod.fst).length + 1 ≤ (fuel + 1) + s.temp.length →
        ∃ s', visit discovered (fuel + 1) n s = .ok s' ∧ s'.temp = s.temp := by
      intro n s hn htN htK htR hbound
      by_cases ht : n ∈ s.temp
      · exact absurd (htR n ht) (hacyc n)
      · by_cases hv : n ∈ s.visited
        · exact ⟨s, by simp [visit, ht, hv], rfl⟩
        · obtain ⟨deps, hlk⟩ := dictLookup_isSome_of_mem_keys discovered n hn
          have hdepsK : ∀ d ∈ deps, d ∈ discovered.map Prod.fst := by
            intro d hd
            exact hclosed (n, deps) (dictLookup_mem discovered n deps hlk) d hd
          have hdeps : depsOf discovered n = deps := by simp [depsOf, hlk]
          obtain ⟨s2, hvl, htmp2⟩ := ih.2 deps { s with temp := n :: s.temp }
            hdepsK (List.nodup_cons.mpr ⟨ht, htN⟩)
            (by
              intro t htm
              rcases List.mem_cons.mp htm with h1 | h1
              · rw [h1]; exact hn
              · exact htK t h1)
            (by
              intro d hd t htm
              rcases List.mem_cons.mp htm with h1 | h1
              · rw [h1]
                exact Relation.TransGen.single
                  (show DepEdge discovered n d by
                    rw [DepEdge, hdeps]; exact hd)
              · exact Relation.TransGen.tail (htR t h1)
                  (show DepEdge discovered n d by
                    rw [DepEdge, hdeps]; exact hd))
            (by simp only [List.length_cons]; omega)
          refine ⟨⟨n :: s2.visited, s2.temp.erase n, s2.result ++ [n]⟩,
            by simp [visit, ht, hv, hlk, hvl], ?_⟩
          simp only [htmp2]
          exact List.erase_cons_head n s.temp
    refine ⟨hvst, ?_⟩
    intro ds
    induction ds with
    | nil =>
      intro s _ _ _ _ _
      exact ⟨s, by simp [visitList], rfl⟩
    | cons d ds ihds =>
      intro s hds htN htK hdsR hbound
      obtain ⟨s1, hvd, htmp1⟩ := hvst d s (hds d (List.mem_cons_self d ds))
        htN htK (hdsR d (List.mem_cons_self d ds)) hbound
      obtain ⟨s', hrest, htmp'⟩ := ihds s1
        (fun x hx => hds x (List.mem_cons_of_mem d hx))
        (htmp1 ▸ htN) (by rw [htmp1]; exact htK)
        (by
          intro x hx t htm
          rw [htmp1] at htm
          exact hdsR x (List.mem_cons_of_mem d hx) t htm)
        (by rw [htmp1]; exact hbound)
      exact ⟨s', by simp [visitList, hvd, hrest], htmp'.trans htmp1⟩

/-- Successful runs of `visit` / its dependency loop leave `temp_visited`
exactly as they found it (every push is matched by the erase on the way
out); no invariant on the state is needed. -/
theorem visit_temp (discovered : List (String × List String)) :
    ∀ fuel : Nat,
    (∀ n s s', visit discovered fuel n s = .ok s' → s'.temp = s.temp) ∧
    (∀ ds s s', visitList discovered fuel ds s = .ok s' →
      s'.temp = s.temp) := by
  intro fuel
  induction fuel with
  | zero =>
    constructor
    · intro n s s' h
      simp [visit] at h
    · intro ds s s' h
      cases ds with
      | nil =>
        simp only [visitList, Except.ok.injEq] at h
        rw [← h]
      | cons d ds => simp [visitList, visit] at h
  | succ fuel ih =>
    have hvst : ∀ n s s', visit discovered (fuel + 1) n s = .ok s' →
        s'.temp = s.temp := by
      intro n s s' h
      by_cases ht : n ∈ s.temp
      · simp [visit, ht] at h
      · by_cases hv : n ∈ s.visited
        · simp only [visit, ht, hv, if_false, if_true, if_neg, if_pos,
            Except.ok.injEq] at h
          rw [← h]
        · cases hlk : dictLookup discovered n with
          | none => simp [visit, ht, hv, hlk] at h
          | some deps =>
            cases hvl : visitList discovered fuel deps
                { s with temp := n :: s.temp } with
            | error e => simp [visit, ht, hv, hlk, hvl] at h
            | ok s2 =>
              simp only [visit, ht, hv, hlk, hvl, if_false, if_neg,
                Except.ok.injEq] at h
              subst h
              have h2 := ih.2 deps _ s2 hvl
              simp only []
              rw [h2]
              exact List.erase_cons_head n s.temp
    refine ⟨hvst, ?_⟩
    intro ds
    induction ds with
    | nil =>
      intro s s' h
      simp only [visitList, Except.ok.injEq] at h
      rw [← h]
    | cons d ds ihds =>
      intro s s' h
      cases hvd : visit discovered (fuel + 1) d s with
      | error e => simp [visitList, hvd] at h
      | ok s1 =>
        simp only [visitList, hvd] at h
        exact (ihds s1 s' h).trans (hvst d s s1 hvd)

/-- Every member of a `temp_visited` chain reflexively-transitively reaches
the head of the chain along dependency edges. -/
theorem chain_reaches (discovered : List (String × List String)) :
    ∀ (t : List String) (a : String),
    List.Chain' (fun x y => DepEdge discovered y x) (a :: t) →
    ∀ x ∈ a :: t, Relation.ReflTransGen (DepEdge discovered) x a := by
  intro t
  induction t with
  | nil =>
    intro a _ x hx
    have hxa : x = a := by simpa using hx
    rw [hxa]
  | cons b t ih =>
    intro a hc x hx
    rcases List.mem_cons.mp hx with h1 | h1
    · rw [h1]
    · have hc' := List.chain'_cons.mp hc
      have hr := ih b hc'.2 x h1
      exact hr.trans (Relation.ReflTransGen.single hc'.1)

/-- Error soundness of `visit` / its dependency loop: under the fuel
budget (which rules out fuel exhaustion, since `temp_visited` holds
distinct discovered names), with `temp_visited` forming a dependency
chain whose head depends on the node being visited, every raised error is
a genuine one — a cycle error names a plugin that really lies on a
dependency cycle, and a missing error names a dependency genuinely absent
from the discovered set and reachable from the visited node. -/
theorem visit_err (discovered : List (String × List String)) :
    ∀ fuel : Nat,
    (∀ n s e, visit discovered fuel n s = .error e →
      s.temp.Nodup → (∀ t ∈ s.temp, t ∈ discovered.map Prod.fst) →
      (discovered.map Prod.fst).length + 1 ≤ fuel + s.temp.length →
      List.Chain' (fun x y => DepEdge discovered y x) s.temp →
      (∀ a t, s.temp = a :: t → DepEdge discovered a n) →
      (∃ m, e = .depCycleError m ∧
        Relation.TransGen (DepEdge discovered) m m) ∨
      (∃ m, e = .depMissingError m ∧ m ∉ discovered.map Prod.fst ∧
        Relation.ReflTransGen (DepEdge discovered) n m)) ∧
    (∀ ds s e, visitList discovered fuel ds s = .error e →
      s.temp.Nodup → (∀ t ∈ s.temp, t ∈ discovered.map Prod.fst) →
      (discovered.map Prod.fst).length + 1 ≤ fuel + s.temp.length →
      List.Chain' (fun x y => DepEdge discovered y x) s.temp →
      (∀ d ∈ ds, ∀ a t, s.temp = a :: t → DepEdge discovered a d) →
      (∃ m, e = .depCycleError m ∧
        Relation.TransGen (DepEdge discovered) m m) ∨
      (∃ m, e = .depMissingError m ∧ m ∉ discovered.map Prod.fst ∧
        ∃ d ∈ ds, Relation.ReflTransGen (DepEdge discovered) d m)) := by
  intro fuel
  induction fuel with
  | zero =>
    have harith : ∀ s : VisitState, s.temp.Nodup →
        (∀ t ∈ s.temp, t ∈ discovered.map Prod.fst) →
        ¬ ((discovered.map Prod.fst).length + 1 ≤ 0 + s.temp.length) := by
      intro s hN hK hb
      have := nodup_subset_length s.temp (discovered.map Prod.fst) hN hK
      omega
    constructor
    · intro n s e _ hN hK hb _ _
      exact absurd hb (harith s hN hK)
    · intro ds s e h hN hK hb _ _
      cases ds with
      | nil => simp [visitList] at h
      | cons d ds => exact absurd hb (harith s hN hK)
  | succ fuel ih =>
    have hvst : ∀ n s e, visit discovered (fuel + 1) n s = .error e →
        s.temp.Nodup → (∀ t ∈ s.temp, t ∈ discovered.map Prod.fst) →
        (discovered.map Prod.fst).length + 1 ≤ (fuel + 1) + s.temp.length →
        List.Chain' (fun x y => DepEdge discovered y x) s.temp →
        (∀ a t, s.temp = a :: t → DepEdge discovered a n) →
        (∃ m, e = .depCycleError m ∧
          Relation.TransGen (DepEdge discovered) m m) ∨
        (∃ m, e = .depMissingError m ∧ m ∉ discovered.map Prod.fst ∧
          Relation.ReflTransGen (DepEdge discovered) n m) := by
      intro n s e h hN hK hb hchain hlink
      by_cases ht : n ∈ s.temp
      · simp only [visit, ht, if_true, if_pos, Except.error.injEq] at h
        subst h
        left
        refine ⟨n, rfl, ?_⟩
        cases htemp : s.temp with
        | nil => rw [htemp] at ht; exact absurd ht (List.not_mem_nil n)
        | cons a t =>
          rw [htemp] at ht hchain
          have hr := chain_reaches discovered t a hchain n ht
          exact Relation.TransGen.tail' hr (hlink a t htemp)
      · by_cases hv : n ∈ s.visited
        · simp [visit, ht, hv] at h
        · cases hlk : dictLookup discovered n with
          | none =>
            simp only [visit, ht, hv, hlk, if_false, if_neg,
              Except.error.injEq] at h
            subst h
            right
            refine ⟨n, rfl, ?_, Relation.ReflTransGen.refl⟩
            intro hmem
            obtain ⟨deps, hd⟩ :=
              dictLookup_isSome_of_mem_keys discovered n hmem
            rw [hlk] at hd
            exact Option.noConfusion hd
          | some deps =>
            have hnk : n ∈ discovered.map Prod.fst :=
              mem_keys_of_dictLookup discovered n deps hlk
            have hdeps : depsOf discovered n = deps := by
              simp [depsOf, hlk]
            cases hvl : visitList discovered fuel deps
                { s with temp := n :: s.temp } with
            | ok s2 => simp [visit, ht, hv, hlk, hvl] at h
            | error e' =>
              simp only [visit, ht, hv, hlk, hvl, if_false, if_neg,
                Except.error.injEq] at h
              subst h
              have hres := ih.2 deps { s with temp := n :: s.temp } e' hvl
                (List.nodup_cons.mpr ⟨ht, hN⟩)
                (by
                  intro t htm
                  rcases List.mem_cons.mp htm with h1 | h1
                  · rw [h1]; exact hnk
                  · exact hK t h1)
                (by simp only [List.length_cons]; omega)
                (by
                  refine List.chain'_cons'.mpr ⟨?_, hchain⟩
                  intro y hy
                  cases htemp : s.temp with
                  | nil => rw [htemp] at hy; simp at hy
                  | cons a t =>
                    rw [htemp] at hy
                    simp only [List.head?_cons, Option.mem_def,
                      Option.some.injEq] at hy
                    rw [← hy]
                    exact hlink a t htemp)
                (by
                  intro d hd a t heq
                  have heq' : n :: s.temp = a :: t := heq
                  injection heq' with h1 h2
                  rw [← h1, DepEdge, hdeps]
                  exact hd)
              rcases hres with hc | ⟨m, he, hmk, d, hd, hr⟩
              · exact .inl hc
              · refine .inr ⟨m, he, hmk, ?_⟩
                refine Relation.ReflTransGen.head
                  (show DepEdge discovered n d by
                    rw [DepEdge, hdeps]; exact hd) hr
    refine ⟨hvst, ?_⟩
    intro ds
    induction ds with
    | nil =>
      intro s e h _ _ _ _ _
      simp [visitList] at h
    | cons d ds ihds =>
      intro s e h hN hK hb hchain hlinks
      cases hvd : visit discovered (fuel + 1) d s with
      | error e' =>
        simp only [visitList, hvd, Except.error.injEq] at h
        subst h
        rcases hvst d s e' hvd hN hK hb hchain
            (hlinks d (List.mem_cons_self d ds)) with hc | ⟨m, he, hmk, hr⟩
        · exact .inl hc
        · exact .inr ⟨m, he, hmk, d, List.mem_cons_self d ds, hr⟩
      | ok s1 =>
        simp only [visitList, hvd] at h
        have htmp := (visit_temp discovered (fuel + 1)).1 d s s1 hvd
        rcases ihds s1 e h (htmp ▸ hN) (by rw [htmp]; exact hK)
            (by rw [htmp]; exact hb) (by rw [htmp]; exact hchain)
            (by
              intro d' hd' a t heq
              rw [htmp] at heq
              exact hlinks d' (List.mem_cons_of_mem d hd') a t heq)
          with hc | ⟨m, he, hmk, d', hd', hr⟩
        · exact .inl hc
        · exact .inr ⟨m, he, hmk, d', List.mem_cons_of_mem d hd', hr⟩

/-- The initial visit state of `resolve_dependencies` satisfies the
invariant. -/
theorem discInv_init (discovered : List (String × List String)) :
    DiscInv discovered ⟨[], [], []⟩ :=
  { tempNodup := List.nodup_nil
    tempKeys := by intro t ht; exact absurd ht (List.not_mem_nil t)
    visitedResult := by intro x; rfl
    resultNodup := List.nodup_nil
    resultTempDisjoint := by intro x hx; exact absurd hx (List.not_mem_nil x)
    resultKeys := by intro x hx; exact absurd hx (List.not_mem_nil x)
    topo := by intro m hm; exact absurd hm (List.not_mem_nil m)
    visitedClosed := by intro v hv; exact absurd hv (List.not_mem_nil v) }

/-- Soundness of a successful `for plugin_name in plugin_names` loop: the
invariant is preserved, `temp_visited` is restored, every requested name
ends up visited, `visited` only grows, and every newly appended result
entry is reachable from some requested name. -/
theorem resolveLoop_sound (discovered : List (String × List String))
    (fuel : Nat) :
    ∀ ns s s', resolveLoop discovered fuel ns s = .ok s' →
      DiscInv discovered s →
      DiscInv discovered s' ∧ s'.temp = s.temp ∧
      (∀ n ∈ ns, n ∈ s'.visited) ∧ (∀ x ∈ s.visited, x ∈ s'.visited) ∧
      (∃ new, s'.result = s.result ++ new ∧
        ∀ x ∈ new, ∃ n ∈ ns, Reaches discovered n x) := by
  intro ns
  induction ns with
  | nil =>
    intro s s' h hinv
    simp only [resolveLoop, Except.ok.injEq] at h
    subst h
    exact ⟨hinv, rfl, by simp, fun x hx => hx, ⟨[], by simp, by simp⟩⟩
  | cons n ns ih =>
    intro s s' h hinv
    by_cases hv : n ∈ s.visited
    · simp only [resolveLoop, if_pos hv] at h
      obtain ⟨hinv', htemp, hns, hmono, new, hres, hreach⟩ := ih s s' h hinv
      refine ⟨hinv', htemp, ?_, hmono, new, hres, ?_⟩
      · intro x hx
        rcases List.mem_cons.mp hx with h1 | h1
        · rw [h1]; exact hmono n hv
        · exact hns x h1
      · intro x hx
        obtain ⟨n', hn', hr⟩ := hreach x hx
        exact ⟨n', List.mem_cons_of_mem n hn', hr⟩
    · cases hvd : visit discovered fuel n s with
      | error e => simp [resolveLoop, hv, hvd] at h
      | ok s1 =>
        simp only [resolveLoop, if_neg hv, hvd] at h
        obtain ⟨hinv1, htemp1, hnv1, hmono1, new1, hres1, hreach1⟩ :=
          (visit_sound discovered fuel).1 n s s1 hvd hinv
        obtain ⟨hinv2, htemp2, hns2, hmono2, new2, hres2, hreach2⟩ :=
          ih s1 s' h hinv1
        refine ⟨hinv2, htemp2.trans htemp1, ?_, ?_, ?_⟩
        · intro x hx
          rcases List.mem_cons.mp hx with h1 | h1
          · rw [h1]; exact hmono2 n hnv1
          · exact hns2 x h1
        · intro x hx
          exact hmono2 x (hmono1 x hx)
        · refine ⟨new1 ++ new2, ?_, ?_⟩
          · rw [hres2, hres1, List.append_assoc]
          · intro x hx
            rcases List.mem_append.mp hx with h1 | h1
            · exact ⟨n, List.mem_cons_self n ns, hreach1 x h1⟩
            · obtain ⟨n', hn', hr⟩ := hreach2 x h1
              exact ⟨n', List.mem_cons_of_mem n hn', hr⟩

/-- On an acyclic, closed dependency graph the resolve loop always
succeeds under the fuel budget of `resolve_dependencies`, starting from
(and returning to) an empty `temp_visited`. -/
theorem resolveLoop_total (discovered : List (String × List String))
    (hclosed : ∀ p ∈ discovered, ∀ d ∈ p.2, d ∈ discovered.map Prod.fst)
    (hacyc : Acyclic discovered) (fuel : Nat)
    (hfuel : (discovered.map Prod.fst).length + 1 ≤ fuel) :
    ∀ ns s, (∀ n ∈ ns, n ∈ discovered.map Prod.fst) → s.temp = [] →
      ∃ s', resolveLoop discovered fuel ns s = .ok s' ∧ s'.temp = [] := by
  intro ns
  induction ns with
  | nil =>
    intro s _ htemp
    exact ⟨s, by simp [resolveLoop], htemp⟩
  | cons n ns ih =>
    intro s hns htemp
    by_cases hv : n ∈ s.visited
    · obtain ⟨s', h1, h2⟩ :=
        ih s (fun x hx => hns x (List.mem_cons_of_mem n hx)) htemp
      exact ⟨s', by simp only [resolveLoop, if_pos hv]; exact h1, h2⟩
    · obtain ⟨s1, hok, htemp1⟩ :=
        (visit_total discovered hclosed hacyc fuel).1 n s
          (hns n (List.mem_cons_self n ns))
          (by rw [htemp]; exact List.nodup_nil)
          (by rw [htemp]; intro t ht; exact absurd ht (List.not_mem_nil t))
          (by rw [htemp]; intro t ht; exact absurd ht (List.not_mem_nil t))
          (by rw [htemp, List.length_nil]; omega)
      obtain ⟨s', h2, h3⟩ :=
        ih s1 (fun x hx => hns x (List.mem_cons_of_mem n hx))
          (htemp1.trans htemp)
      exact ⟨s', by simp only [resolveLoop, if_neg hv, hok]; exact h2, h3⟩

/-- A resolve loop over a concatenation factors through an intermediate
state. -/
theorem resolveLoop_split (discovered : List (String × List String))
    (fuel : Nat) :
    ∀ as bs s s', resolveLoop discovered fuel (as ++ bs) s = .ok s' →
      ∃ s1, resolveLoop discovered fuel as s = .ok s1 ∧
        resolveLoop discovered fuel bs s1 = .ok s' := by
  intro as
  induction as with
  | nil =>
    intro bs s s' h
    exact ⟨s, by simp [resolveLoop], h⟩
  | cons n as ih =>
    intro bs s s' h
    by_cases hv : n ∈ s.visited
    · simp only [List.cons_append, resolveLoop, if_pos hv] at h
      obtain ⟨s1, h1, h2⟩ := ih bs s s' h
      exact ⟨s1, by simp only [resolveLoop, if_pos hv]; exact h1, h2⟩
    · cases hvd : visit discovered fuel n s with
      | error e => simp [resolveLoop, hv, hvd] at h
      | ok s1 =>
        simp only [List.cons_append, resolveLoop, if_neg hv, hvd] at h
        obtain ⟨s2, h1, h2⟩ := ih bs s1 s' h
        exact ⟨s2, by simp only [resolveLoop, if_neg hv, hvd]; exact h1, h2⟩

/-- Error soundness of the resolve loop from an empty `temp_visited`
under the fuel budget: any error is a cycle error naming a plugin on a
real dependency cycle, or a missing error naming a genuinely undiscovered
name reachable from some requested name. -/
theorem resolveLoop_err (discovered : List (String × List String))
    (fuel : Nat)
    (hfuel : (discovered.map Prod.fst).length + 1 ≤ fuel) :
    ∀ ns s e, resolveLoop discovered fuel ns s = .error e → s.temp = [] →
      (∃ m, e = .depCycleError m ∧
        Relation.TransGen (DepEdge discovered) m m) ∨
      (∃ m, e = .depMissingError m ∧ m ∉ discovered.map Prod.fst ∧
        ∃ n ∈ ns, Reaches discovered n m) := by
  intro ns
  induction ns with
  | nil =>
    intro s e h _
    simp [resolveLoop] at h
  | cons n ns ih =>
    intro s e h htemp
    by_cases hv : n ∈ s.visited
    · simp only [resolveLoop, if_pos hv] at h
      rcases ih s e h htemp with hc | ⟨m, he, hm, n', hn', hr⟩
      · exact .inl hc
      · exact .inr ⟨m, he, hm, n', List.mem_cons_of_mem n hn', hr⟩
    · cases hvd : visit discovered fuel n s with
      | error e' =>
        simp only [resolveLoop, if_neg hv, hvd, Except.error.injEq] at h
        subst h
        rcases (visit_err discovered fuel).1 n s e' hvd
            (by rw [htemp]; exact List.nodup_nil)
            (by rw [htemp]; intro t ht; exact absurd ht (List.not_mem_nil t))
            (by rw [htemp, List.length_nil]; omega)
            (by rw [htemp]; exact List.chain'_nil)
            (by
              intro a t heq
              rw [htemp] at heq
              exact absurd heq (List.noConfusion))
          with hc | ⟨m, he, hmk, hr⟩
        · exact .inl hc
        · exact .inr ⟨m, he, hmk, n, List.mem_cons_self n ns, hr⟩
      | ok s1 =>
        simp only [resolveLoop, if_neg hv, hvd] at h
        have htmp1 := (visit_temp discovered fuel).1 n s s1 hvd
        rcases ih s1 e h (htmp1.trans htemp) with
          hc | ⟨m, he, hm, n', hn', hr⟩
        · exact .inl hc
        · exact .inr ⟨m, he, hm, n', List.mem_cons_of_mem n hn', hr⟩

/-- In an invariant-satisfying state, the visited set is closed under
reachability along dependency edges. -/
theorem visited_closed_reach (discovered : List (String × List String))
    (s : VisitState) (hinv : DiscInv discovered s) :
    ∀ x y, Relation.ReflTransGen (DepEdge discovered) x y →
      x ∈ s.visited → y ∈ s.visited := by
  intro x y h hx
  induction h with
  | refl => exact hx
  | tail h1 h2 ih => exact hinv.visitedClosed _ ih _ h2

/-- In an invariant-satisfying state, following a nonempty dependency
path from a visited node strictly decreases the result index, so no
visited node can lie on a dependency cycle. -/
theorem topo_reach (discovered : List (String × List String))
    (s : VisitState) (hinv : DiscInv discovered s) :
    ∀ x y, Relation.TransGen (DepEdge discovered) x y → x ∈ s.visited →
      s.result.indexOf y < s.result.indexOf x := by
  intro x y h hx
  induction h with
  | single h1 => exact hinv.topo x ((hinv.visitedResult x).mp hx) _ h1
  | tail h1 h2 ih =>
    have hb := visited_closed_reach discovered s hinv x _
      h1.to_reflTransGen hx
    have := hinv.topo _ ((hinv.visitedResult _).mp hb) _ h2
    omega

/-- **C2**: On an acyclic dependency graph that is closed over the
discovered set, for any requested list of discovered plugin names,
`resolve_dependencies` succeeds and returns exactly `resolvedOrder` (a
function of the discovered set and the request alone, hence
deterministic); the order contains every requested name, has no
duplicates, places every plugin after all of its listed dependencies,
and breaks ties by original request order: a requested name not reachable
from any earlier (or equal) request position is placed after the earlier
requested name. -/
theorem resolve_dependencies_topological
    (discovered : List (String × List String)) (names : List String)
    (hclosed : ∀ p ∈ discovered, ∀ d ∈ p.2, d ∈ discovered.map Prod.fst)
    (hacyc : Acyclic discovered)
    (hnames : ∀ n ∈ names, n ∈ discovered.map Prod.fst) :
    resolveDependencies discovered names =
      .ok (resolvedOrder discovered names) ∧
    (∀ n ∈ names, n ∈ resolvedOrder discovered names) ∧
    (resolvedOrder discovered names).Nodup ∧
    (∀ m ∈ resolvedOrder discovered names, ∀ d ∈ depsOf discovered m,
      (resolvedOrder discovered names).indexOf d <
        (resolvedOrder discovered names).indexOf m) ∧
    (∀ i j : Fin names.length, i < j →
      (∀ k : Fin names.length, k ≤ i →
        ¬ Reaches discovered (names.get k) (names.get j)) →
      (resolvedOrder discovered names).indexOf (names.get i) <
        (resolvedOrder discovered names).indexOf (names.get j)) := by
  have hfuel : (discovered.map Prod.fst).length + 1 ≤
      discovered.length + 1 := by
    rw [List.length_map]
  obtain ⟨s', hloop, htemp'⟩ :=
    resolveLoop_total discovered hclosed hacyc (discovered.length + 1)
      hfuel names ⟨[], [], []⟩ hnames rfl
  obtain ⟨hinv', _, hvis, _, newAll, hresAll, _⟩ :=
    resolveLoop_sound discovered (discovered.length + 1) names
      ⟨[], [], []⟩ s' hloop (discInv_init discovered)
  have hres_eq : resolveDependencies discovered names = .ok s'.result := by
    simp [resolveDependencies, hloop]
  have hord : resolvedOrder discovered names = s'.result := by
    simp [resolvedOrder, hres_eq, Except.toOption]
  refine ⟨by rw [hord]; exact hres_eq, ?_, ?_, ?_, ?_⟩
  · intro n hn
    rw [hord]
    exact (hinv'.visitedResult n).mp (hvis n hn)
  · rw [hord]
    exact hinv'.resultNodup
  · intro m hm d hd
    rw [hord] at hm ⊢
    exact hinv'.topo m hm d hd
  · intro i j hij hk
    have hloop' : resolveLoop discovered (discovered.length + 1)
        (names.take (↑i + 1) ++ names.drop (↑i + 1)) ⟨[], [], []⟩ =
        .ok s' := by
      rw [List.take_append_drop]
      exact hloop
    obtain ⟨s1, h1, h2⟩ :=
      resolveLoop_split discovered (discovered.length + 1)
        (names.take (↑i + 1)) (names.drop (↑i + 1)) ⟨[], [], []⟩ s' hloop'
    obtain ⟨hinv1, htemp1, hvis1, _, new1, hres1, hreach1⟩ :=
      resolveLoop_sound discovered (discovered.length + 1)
        (names.take (↑i + 1)) ⟨[], [], []⟩ s1 h1 (discInv_init discovered)
    obtain ⟨_, _, _, _, new2, hres2, _⟩ :=
      resolveLoop_sound discovered (discovered.length + 1)
        (names.drop (↑i + 1)) s1 s' h2 hinv1
    have hchar : names.get i ∈ names.take (↑i + 1) := by
      rw [List.mem_take_iff_getElem]
      refine ⟨↑i, ?_, ?_⟩
      · have := i.isLt
        omega
      · simp [List.get_eq_getElem]
    have hvi : names.get i ∈ s1.result :=
      (hinv1.visitedResult _).mp (hvis1 _ hchar)
    have hnj : names.get j ∉ s1.result := by
      intro hmem
      rw [hres1] at hmem
      have hmem' : names.get j ∈ new1 := by simpa using hmem
      obtain ⟨n', hn', hr⟩ := hreach1 _ hmem'
      rw [List.mem_take_iff_getElem] at hn'
      obtain ⟨k, hklt, hkeq⟩ := hn'
      have hklen : k < names.length := by omega
      have hki : (⟨k, hklen⟩ : Fin names.length) ≤ i :=
        Fin.le_def.mpr (by simpa using Nat.lt_succ_iff.mp (by omega))
      refine hk ⟨k, hklen⟩ hki ?_
      have hkg : names.get ⟨k, hklen⟩ = n' := by
        rw [List.get_eq_getElem]
        exact hkeq
      rw [hkg]
      exact hr
    rw [hord, hres2]
    rw [List.indexOf_append_of_mem hvi, indexOf_append_not_mem _ _ _ hnj]
    have := List.indexOf_lt_length.mpr hvi
    omega

/-- A concrete discovered set: plugin `a` depends on `b`, `b` on nothing. -/
def twoChain : List (String × List String) := [("a", ["b"]), ("b", [])]

/-- Every dependency edge of `twoChain` goes from `a` to `b`. -/
theorem twoChain_edge : ∀ x y, DepEdge twoChain x y → x = "a" ∧ y = "b" := by
  intro x y h
  rw [DepEdge, depsOf] at h
  by_cases hx : "a" = x
  · subst hx
    simp only [twoChain, dictLookup] at h
    simp at h
    exact ⟨rfl, h⟩
  · by_cases hx2 : "b" = x
    · subst hx2
      simp [twoChain, dictLookup] at h
    · simp [twoChain, dictLookup, hx, hx2] at h

/-- The `twoChain` graph has no dependency cycle. -/
theorem twoChain_acyclic : Acyclic twoChain := by
  intro n hn
  have hglob : ∀ x y, Relation.TransGen (DepEdge twoChain) x y →
      x = "a" ∧ y = "b" := by
    intro x y hxy
    induction hxy with
    | single h1 => exact twoChain_edge _ _ h1
    | tail h1 h2 ih =>
      have h3 := twoChain_edge _ _ h2
      exact absurd (h3.1.symm.trans ih.2) (by decide)
  have := hglob n n hn
  exact absurd (this.1.symm.trans this.2) (by decide)

/-- Witness for **C2** on the concrete discovered set `twoChain` with the
request `["a", "b"]`: the hypotheses (closure over the discovered set,
acyclicity, requested names discovered) hold, and the conclusion follows
by the theorem. -/
theorem resolve_dependencies_topological_witness :
    ((∀ p ∈ twoChain, ∀ d ∈ p.2, d ∈ twoChain.map Prod.fst) ∧
      Acyclic twoChain ∧
      (∀ n ∈ ["a", "b"], n ∈ twoChain.map Prod.fst)) ∧
    (resolveDependencies twoChain ["a", "b"] =
        .ok (resolvedOrder twoChain ["a", "b"]) ∧
      (∀ n ∈ ["a", "b"], n ∈ resolvedOrder twoChain ["a", "b"]) ∧
      (resolvedOrder twoChain ["a", "b"]).Nodup ∧
      (∀ m ∈ resolvedOrder twoChain ["a", "b"], ∀ d ∈ depsOf twoChain m,
        (resolvedOrder twoChain ["a", "b"]).indexOf d <
          (resolvedOrder twoChain ["a", "b"]).indexOf m) ∧
      (∀ i j : Fin (["a", "b"] : List String).length, i < j →
        (∀ k : Fin (["a", "b"] : List String).length, k ≤ i →
          ¬ Reaches twoChain ((["a", "b"] : List String).get k)
            ((["a", "b"] : List String).get j)) →
        (resolvedOrder twoChain ["a", "b"]).indexOf
            ((["a", "b"] : List String).get i) <
          (resolvedOrder twoChain ["a", "b"]).indexOf
            ((["a", "b"] : List String).get j))) :=
  ⟨⟨by decide, twoChain_acyclic, by decide⟩,
    resolve_dependencies_topological twoChain ["a", "b"] (by decide)
      twoChain_acyclic (by decide)⟩

/-- **C3**: If some requested plugin name can reach a dependency cycle or
a dependency absent from the discovered set (including the requested name
itself being undiscovered), then `load_plugins` fails with a dependency
error — a cycle error naming a plugin genuinely on a cycle, or a missing
error naming the genuinely undiscovered name — and the manager state is
returned exactly as it was: no plugin is instantiated, registered, or
even attempted. -/
theorem load_plugins_dependency_failure
    (discovered : List (String × List String)) (names : List String)
    (loadClass : String → Except PyExn PluginClass)
    (behavior : String → Option FailStep) (st : MState)
    (hdefect : ∃ n ∈ names,
      (∃ m, Reaches discovered n m ∧
        Relation.TransGen (DepEdge discovered) m m) ∨
      (∃ m, Reaches discovered n m ∧ m ∉ discovered.map Prod.fst)) :
    ∃ e, loadPlugins discovered loadClass behavior st names =
        (.error e, st) ∧
      ((∃ m, e = .depCycleError m ∧
          Relation.TransGen (DepEdge discovered) m m) ∨
       (∃ m, e = .depMissingError m ∧ m ∉ discovered.map Prod.fst)) := by
  obtain ⟨n, hn, hdef⟩ := hdefect
  have hfuel : (discovered.map Prod.fst).length + 1 ≤
      discovered.length + 1 := by
    rw [List.length_map]
  cases hres : resolveDependencies discovered names with
  | ok order =>
    exfalso
    have hloop : ∃ s', resolveLoop discovered (discovered.length + 1)
        names ⟨[], [], []⟩ = .ok s' := by
      cases hl : resolveLoop discovered (discovered.length + 1) names
          ⟨[], [], []⟩ with
      | ok s' => exact ⟨s', rfl⟩
      | error e => simp [resolveDependencies, hl] at hres
    obtain ⟨s', hl⟩ := hloop
    obtain ⟨hinv', _, hvis, _, _⟩ :=
      resolveLoop_sound discovered (discovered.length + 1) names
        ⟨[], [], []⟩ s' hl (discInv_init discovered)
    have hnv : n ∈ s'.visited := hvis n hn
    rcases hdef with ⟨m, hr, hcyc⟩ | ⟨m, hr, hmk⟩
    · have hm : m ∈ s'.visited :=
        visited_closed_reach discovered s' hinv' n m hr hnv
      have := topo_reach discovered s' hinv' m m hcyc hm
      omega
    · have hm : m ∈ s'.visited :=
        visited_closed_reach discovered s' hinv' n m hr hnv
      exact hmk (hinv'.resultKeys m ((hinv'.visitedResult m).mp hm))
  | error e =>
    refine ⟨e, by simp [loadPlugins, hres], ?_⟩
    have hloop : resolveLoop discovered (discovered.length + 1) names
        ⟨[], [], []⟩ = .error e := by
      cases hl : resolveLoop discovered (discovered.length + 1) names
          ⟨[], [], []⟩ with
      | ok s' => simp [resolveDependencies, hl] at hres
      | error e' =>
        simp only [resolveDependencies, hl, Except.error.injEq] at hres
        rw [hres]
    rcases resolveLoop_err discovered (discovered.length + 1) hfuel names
        ⟨[], [], []⟩ e hloop rfl with hc | ⟨m, he, hm, _, _, _⟩
    · exact .inl hc
    · exact .inr ⟨m, he, hm⟩

/-- A concrete discovered set with a dependency cycle: `a` depends on
`b` and `b` depends back on `a`. -/
def twoCycle : List (String × List String) := [("a", ["b"]), ("b", ["a"])]

/-- Witness for **C3** on the concrete cyclic discovered set `twoCycle`
with the request `["a"]`: the defect hypothesis holds (the requested
plugin `a` lies on the cycle `a → b → a`), and the conclusion follows by
the theorem with a concrete loader, failure behavior, and manager
state. -/
theorem load_plugins_dependency_failure_witness :
    (∃ n ∈ ["a"],
      (∃ m, Reaches twoCycle n m ∧
        Relation.TransGen (DepEdge twoCycle) m m) ∨
      (∃ m, Reaches twoCycle n m ∧ m ∉ twoCycle.map Prod.fst)) ∧
    (∃ e, loadPlugins twoCycle (fun _ => .error (.userError "no loader"))
        (fun _ => none) emptyMState ["a"] = (.error e, emptyMState) ∧
      ((∃ m, e = .depCycleError m ∧
          Relation.TransGen (DepEdge twoCycle) m m) ∨
       (∃ m, e = .depMissingError m ∧ m ∉ twoCycle.map Prod.fst))) := by
  have hab : DepEdge twoCycle "a" "b" := by
    rw [DepEdge]
    decide
  have hba : DepEdge twoCycle "b" "a" := by
    rw [DepEdge]
    decide
  have hcyc : Relation.TransGen (DepEdge twoCycle) "a" "a" :=
    Relation.TransGen.tail (Relation.TransGen.single hab) hba
  have hdef : ∃ n ∈ ["a"],
      (∃ m, Reaches twoCycle n m ∧
        Relation.TransGen (DepEdge twoCycle) m m) ∨
      (∃ m, Reaches twoCycle n m ∧ m ∉ twoCycle.map Prod.fst) :=
    ⟨"a", List.mem_singleton.mpr rfl,
      .inl ⟨"a", Relation.ReflTransGen.refl, hcyc⟩⟩
  exact ⟨hdef,
    load_plugins_dependency_failure twoCycle ["a"]
      (fun _ => .error (.userError "no loader")) (fun _ => none)
      emptyMState hdef⟩
